import Mathlib

/-!
Verification development for the rule-evaluation and formula-sandbox engine of
the `cat_system` stock screener (Python backend, `backend/app/engine/`).

The Python source is shallowly embedded:
* pandas `DataFrame`s become association lists of named columns of `Cell`s,
  where a `Cell` is a rational number, `±inf`, `NaN` (also standing for
  missing values / `None`, as pandas coerces `None` to `NaN` in value
  columns), or a string.
* `formula_parser.py` (tokenizer, `is_number`, `validate_formula`,
  `safe_eval_formula`) is translated function by function; the call to
  `DataFrame.eval(..., engine="numexpr")` is modelled by an explicit
  tokenizer/parser/evaluator for the arithmetic fragment of the pandas
  expression language (see `pyParseExpr` below).
* `operators.py` (`cross_up`, `cross_down`, the comparison map) and
  `screener.py` (`apply_rule`, the orchestration of `run_screen`) are
  translated with Python exceptions represented as `Except String`.
-/

instance {ε α : Type} [DecidableEq ε] [DecidableEq α] : DecidableEq (Except ε α)
  | .error e, .error f =>
    if h : e = f then isTrue (by rw [h]) else isFalse (by intro k; cases k; exact h rfl)
  | .error _, .ok _ => isFalse (by intro k; cases k)
  | .ok _, .error _ => isFalse (by intro k; cases k)
  | .ok a, .ok b =>
    if h : a = b then isTrue (by rw [h]) else isFalse (by intro k; cases k; exact h rfl)

/-- A cell of a pandas column: a (finite) rational value, `+inf`, `-inf`,
`NaN` (which also stands for a missing value), or a string. -/
inductive Cell where
  | num (q : ℚ)
  | pinf
  | minf
  | nan
  | str (s : String)
deriving DecidableEq, Repr

/-- A pandas column: a list of cells (one per row). -/
abbrev Col := List Cell

/-- A pandas `DataFrame`: named columns in order.  (All claims concern
data frames whose columns have equal length; theorems that need this carry
a `Panel.uniform` hypothesis.) -/
abbrev Panel := List (String × Col)

/-- Column lookup, `df[name]` / `name in df.columns`. -/
def Panel.getCol : Panel → String → Option Col
  | [], _ => none
  | (m, c) :: rest, n => if m = n then some c else Panel.getCol rest n

/-- The list of column names, `df.columns`. -/
def Panel.columns (df : Panel) : List String := df.map Prod.fst

/-- Number of rows: the length of the first column (0 for a column-less
frame).  This matches `len(df)` on uniform frames. -/
def Panel.nrows : Panel → Nat
  | [] => 0
  | (_, c) :: _ => c.length

/-- All columns have the same length. -/
def Panel.uniform (df : Panel) : Prop := ∀ p ∈ df, p.2.length = df.nrows

instance (df : Panel) : Decidable df.uniform := by
  unfold Panel.uniform; infer_instance

/-- `df.empty`: a frame with no rows or no columns. -/
def Panel.isEmpty (df : Panel) : Bool := df.nrows = 0 || df.columns = []

/-- `df[name] = col`: replace the column if the name exists, else append it
(the pandas `__setitem__` semantics used by `safe_eval_formula`). -/
def Panel.setCol : Panel → String → Col → Panel
  | [], n, v => [(n, v)]
  | (m, c) :: rest, n, v =>
    if m = n then (n, v) :: rest else (m, c) :: Panel.setCol rest n v

/-! ### Character classes and the token scanner of `formula_parser.tokenize` -/

/-- ASCII whitespace, the characters matched by the regex class `\s` (and
stripped by `str.strip`) on the inputs of interest. -/
def isPyWs (c : Char) : Bool :=
  c = ' ' || c = '\t' || c = '\n' || c = '\r' || c = '\x0b' || c = '\x0c'

/-- First character of an identifier token: `[a-zA-Z_]`. -/
def isIdentStart (c : Char) : Bool := c.isAlpha || c = '_'

/-- Continuation character of an identifier token: `[a-zA-Z0-9_]`. -/
def isIdentCont (c : Char) : Bool := c.isAlpha || c.isDigit || c = '_'

/-- The single-character operators of the token pattern: `[+\-*/()]`. -/
def isOpChar (c : Char) : Bool :=
  c = '+' || c = '-' || c = '*' || c = '/' || c = '(' || c = ')'

/-- A character at which the scanner can start a token (identifier, number,
or operator).  Whitespace matches the regex too but is stripped away, and
any other character is skipped by `re.findall`; neither yields a token. -/
def isTokenStart (c : Char) : Bool := isIdentStart c || c.isDigit || isOpChar c

/-- Scanner state: between tokens, inside an identifier, inside the integer
digits of a number, or past the decimal point of a number. -/
inductive SMode where
  | idle
  | ident
  | intg
  | frac
deriving DecidableEq, Repr

/-- The scanner behind `TOKEN_PATTERN.findall`, as a character-driven state
machine equivalent to the maximal-munch regex scan: at each position it
emits an identifier `[a-zA-Z_][a-zA-Z0-9_]*`, a number `[0-9]+\.?[0-9]*`,
or a single operator character; whitespace matches the pattern but is then
stripped and filtered out, and every other character is silently skipped
(the semantics of `re.findall` with an unanchored pattern).  `cur` holds
the characters of the token in progress, in reverse. -/
def scanSM : SMode → List Char → List Char → List String
  | .idle, _, [] => []
  | .ident, cur, [] => [String.mk cur.reverse]
  | .intg, cur, [] => [String.mk cur.reverse]
  | .frac, cur, [] => [String.mk cur.reverse]
  | .idle, _, c :: cs =>
    if isIdentStart c then scanSM .ident [c] cs
    else if c.isDigit then scanSM .intg [c] cs
    else if isOpChar c then String.mk [c] :: scanSM .idle [] cs
    else scanSM .idle [] cs
  | .ident, cur, c :: cs =>
    if isIdentCont c then scanSM .ident (c :: cur) cs
    else if isOpChar c then
      String.mk cur.reverse :: String.mk [c] :: scanSM .idle [] cs
    else String.mk cur.reverse :: scanSM .idle [] cs
  | .intg, cur, c :: cs =>
    if c.isDigit then scanSM .intg (c :: cur) cs
    else if c = '.' then scanSM .frac (c :: cur) cs
    else if isIdentStart c then String.mk cur.reverse :: scanSM .ident [c] cs
    else if isOpChar c then
      String.mk cur.reverse :: String.mk [c] :: scanSM .idle [] cs
    else String.mk cur.reverse :: scanSM .idle [] cs
  | .frac, cur, c :: cs =>
    if c.isDigit then scanSM .frac (c :: cur) cs
    else if isIdentStart c then String.mk cur.reverse :: scanSM .ident [c] cs
    else if isOpChar c then
      String.mk cur.reverse :: String.mk [c] :: scanSM .idle [] cs
    else String.mk cur.reverse :: scanSM .idle [] cs

/-- `tokenize(formula)` from `formula_parser.py`. -/
def tokenize (formula : String) : List String := scanSM .idle [] formula.data

/-! ### `is_number`: a model of Python's `float()` acceptance -/

/-- Parse a digit group with Python's grouping underscores
(`digit (digit | "_" digit)*`); returns the accumulated value, the number
of digits consumed, and the rest.  Fails (`none`) on a dangling `_`. -/
def digitGroup : List Char → Nat → Nat → Option (Nat × Nat × List Char)
  | [], acc, k => some (acc, k, [])
  | c :: cs, acc, k =>
    if c.isDigit then digitGroup cs (acc * 10 + (c.toNat - '0'.toNat)) (k + 1)
    else if c = '_' then
      match cs with
      | c2 :: cs2 =>
        if c2.isDigit then
          digitGroup cs2 (acc * 10 + (c2.toNat - '0'.toNat)) (k + 1)
        else none
      | [] => none
    else some (acc, k, c :: cs)

/-- Case-insensitive keyword match for `inf`/`infinity`/`nan`. -/
def lowerStr (cs : List Char) : List Char := cs.map Char.toLower

/-- Parse the unsigned core of a Python float literal:
`digits [. digits] [exp]`, `. digits [exp]`, or the words
`inf`/`infinity`/`nan`.  Returns the value as a `Cell`. -/
def pyFloatCore (cs : List Char) : Option Cell :=
  match lowerStr cs with
  | ['i', 'n', 'f'] => some Cell.pinf
  | ['i', 'n', 'f', 'i', 'n', 'i', 't', 'y'] => some Cell.pinf
  | ['n', 'a', 'n'] => some Cell.nan
  | _ =>
    -- integer part (possibly empty), fractional part, exponent
    let startsDigit := match cs with
      | c :: _ => c.isDigit
      | [] => false
    let afterInt : Option (ℚ × List Char) :=
      if startsDigit then
        match digitGroup cs 0 0 with
        | some (v, _, rest) => some ((v : ℚ), rest)
        | none => none
      else some (0, cs)
    match afterInt with
    | none => none
    | some (ip, rest1) =>
      let fracPart : Option (ℚ × Bool × List Char) :=
        match rest1 with
        | '.' :: cs2 =>
          match cs2 with
          | c2 :: _ =>
            if c2.isDigit then
              match digitGroup cs2 0 0 with
              | some (v, k, rest2) => some ((v : ℚ) / ((10 : ℚ) ^ k), true, rest2)
              | none => none
            else some (0, false, cs2)
          | [] => some (0, false, [])
        | _ => some (0, false, rest1)
      match fracPart with
      | none => none
      | some (fp, hasFrac, rest2) =>
        -- at least one digit must have appeared
        if !startsDigit && !hasFrac then none
        else
          match rest2 with
          | [] => some (Cell.num (ip + fp))
          | e :: cs3 =>
            if e = 'e' || e = 'E' then
              let signed : (Bool × List Char) :=
                match cs3 with
                | '+' :: cs4 => (false, cs4)
                | '-' :: cs4 => (true, cs4)
                | _ => (false, cs3)
              match signed.2 with
              | c4 :: _ =>
                if c4.isDigit then
                  match digitGroup signed.2 0 0 with
                  | some (v, _, []) =>
                    let base := ip + fp
                    some (Cell.num (if signed.1 then base / ((10 : ℚ) ^ v)
                                    else base * ((10 : ℚ) ^ v)))
                  | _ => none
                else none
              | [] => none
            else none

/-- A model of Python's `float(s)`: strips whitespace, takes an optional
sign, then a float literal or `inf`/`infinity`/`nan` (case-insensitive).
`none` models `ValueError`. -/
def pyFloat (s : String) : Option Cell :=
  let cs := (s.data.dropWhile isPyWs).reverse.dropWhile isPyWs |>.reverse
  let core :=
    match cs with
    | '+' :: cs2 => pyFloatCore cs2
    | '-' :: cs2 =>
      match pyFloatCore cs2 with
      | some (Cell.num q) => some (Cell.num (-q))
      | some Cell.pinf => some Cell.minf
      | some Cell.nan => some Cell.nan
      | r => r
    | _ => pyFloatCore cs
  core

/-- `is_number(s)` from `formula_parser.py`: `float(s)` succeeds. -/
def is_number (s : String) : Bool := (pyFloat s).isSome

/-! ### `validate_formula` -/

/-- The field whitelist `ALLOWED_FIELDS`. -/
def ALLOWED_FIELDS : List String :=
  ["open", "high", "low", "close", "volume",
   "ma5", "ma10", "ma20", "ma60",
   "rsi14",
   "pe_ratio", "eps",
   "foreign_buy", "trust_buy", "margin_balance",
   "change_percent"]

/-- `ALLOWED_OPERATORS` (the space never survives tokenization but is kept
for fidelity). -/
def ALLOWED_OPERATORS : List String := ["+", "-", "*", "/", "(", ")", " "]

def MAX_FORMULA_LENGTH : Nat := 500

def MAX_TOKEN_COUNT : Nat := 50

/-- `str.strip()` (ASCII whitespace). -/
def pyStrip (s : String) : String :=
  String.mk ((s.data.dropWhile isPyWs).reverse.dropWhile isPyWs |>.reverse)

/-- The token loop of `validate_formula`: returns the first token that is
neither an allowed operator, nor a number, nor a whitelisted field. -/
def checkTokens : List String → Option String
  | [] => none
  | t :: ts =>
    if t ∈ ALLOWED_OPERATORS then checkTokens ts
    else if is_number t then checkTokens ts
    else if t ∈ ALLOWED_FIELDS then checkTokens ts
    else some t

/-- The parenthesis depth scan of `validate_formula`: the running depth
must never go negative and must end at zero. -/
def parenScan : List String → Int → Bool
  | [], d => d = 0
  | t :: ts, d =>
    if t = "(" then parenScan ts (d + 1)
    else if t = ")" then
      if d - 1 < 0 then false else parenScan ts (d - 1)
    else parenScan ts d

/-- `validate_formula(formula)` from `formula_parser.py`, returning the
`(is_valid, error_message)` pair. -/
def validate_formula (formula : String) : Bool × String :=
  if pyStrip formula = "" then (false, "公式不可為空")
  else if formula.length > MAX_FORMULA_LENGTH then
    (false, "公式長度超過上限 (500 字元)")
  else
    let toks := tokenize formula
    if toks = [] then (false, "公式解析失敗")
    else if toks.length > MAX_TOKEN_COUNT then
      (false, "公式複雜度超過上限 (50 tokens)")
    else
      match checkTokens toks with
      | some t => (false, "不允許的 token: " ++ t)
      | none =>
        if parenScan toks 0 then (true, "") else (false, "括號不配對")

example : tokenize "close ** 2" = ["close", "*", "*", "2"] := by with_unfolding_all decide
example : tokenize "(ma5+ma10)/2" = ["(", "ma5", "+", "ma10", ")", "/", "2"] := by with_unfolding_all decide
example : tokenize "close @ 3" = ["close", "3"] := by with_unfolding_all decide
example : tokenize "1.25 + .5" = ["1.25", "+", "5"] := by with_unfolding_all decide
example : is_number "nan" = true := by with_unfolding_all decide
example : is_number "1.5e3" = true := by with_unfolding_all decide
example : is_number "close" = false := by with_unfolding_all decide
example : (validate_formula "close ** 2").1 = true := by with_unfolding_all decide
example : validate_formula "(close" = (false, "括號不配對") := by with_unfolding_all decide
example : validate_formula "" = (false, "公式不可為空") := by with_unfolding_all decide
example : validate_formula "nan" = (true, "") := by with_unfolding_all decide
example : validate_formula "foo + 1" = (false, "不允許的 token: foo") := by with_unfolding_all decide

/-! ### A model of `DataFrame.eval(formula, engine="numexpr")`

`safe_eval_formula` delegates evaluation to the pandas/numexpr expression
engine.  The fragment modelled here is the arithmetic fragment of that
language: names, numeric literals, `+ - * / ** // %`, unary `+`/`-`, and
parentheses, evaluated element-wise over the columns with IEEE-style
special values (`±inf`, `NaN`).  Comparison, boolean and attribute syntax
of the library language are outside the model and are mapped to evaluation
errors; power with a non-integer exponent and modular/floor-division
involving infinities are approximated by `NaN` (no claim depends on
them). -/

/-- Abstract syntax of the modelled expression fragment. -/
inductive Ast where
  | lit (c : Cell)
  | col (s : String)
  | add (a b : Ast)
  | sub (a b : Ast)
  | mul (a b : Ast)
  | div (a b : Ast)
  | idiv (a b : Ast)
  | mod (a b : Ast)
  | pow (a b : Ast)
  | neg (a : Ast)
deriving DecidableEq, Repr

/-- Unary minus on cells (strings are invalid operands). -/
def Cell.negE : Cell → Except String Cell
  | .num q => .ok (.num (-q))
  | .pinf => .ok .minf
  | .minf => .ok .pinf
  | .nan => .ok .nan
  | .str _ => .error "invalid string operand"

/-- IEEE-style addition on cells. -/
def Cell.addE : Cell → Cell → Except String Cell
  | .str _, _ => .error "invalid string operand"
  | _, .str _ => .error "invalid string operand"
  | .nan, _ => .ok .nan
  | _, .nan => .ok .nan
  | .num a, .num b => .ok (.num (a + b))
  | .num _, .pinf => .ok .pinf
  | .pinf, .num _ => .ok .pinf
  | .num _, .minf => .ok .minf
  | .minf, .num _ => .ok .minf
  | .pinf, .pinf => .ok .pinf
  | .minf, .minf => .ok .minf
  | .pinf, .minf => .ok .nan
  | .minf, .pinf => .ok .nan

/-- IEEE-style subtraction, via negation. -/
def Cell.subE (a b : Cell) : Except String Cell := do
  Cell.addE a (← Cell.negE b)

/-- IEEE-style multiplication on cells. -/
def Cell.mulE : Cell → Cell → Except String Cell
  | .str _, _ => .error "invalid string operand"
  | _, .str _ => .error "invalid string operand"
  | .nan, _ => .ok .nan
  | _, .nan => .ok .nan
  | .num a, .num b => .ok (.num (a * b))
  | .pinf, .num b => .ok (if b > 0 then .pinf else if b < 0 then .minf else .nan)
  | .num a, .pinf => .ok (if a > 0 then .pinf else if a < 0 then .minf else .nan)
  | .minf, .num b => .ok (if b > 0 then .minf else if b < 0 then .pinf else .nan)
  | .num a, .minf => .ok (if a > 0 then .minf else if a < 0 then .pinf else .nan)
  | .pinf, .pinf => .ok .pinf
  | .minf, .minf => .ok .pinf
  | .pinf, .minf => .ok .minf
  | .minf, .pinf => .ok .minf

/-- IEEE-style division on cells; division by zero yields `±inf`/`NaN`
rather than an error, as the numexpr engine does. -/
def Cell.divE : Cell → Cell → Except String Cell
  | .str _, _ => .error "invalid string operand"
  | _, .str _ => .error "invalid string operand"
  | .nan, _ => .ok .nan
  | _, .nan => .ok .nan
  | .num a, .num b =>
    .ok (if b = 0 then (if a > 0 then .pinf else if a < 0 then .minf else .nan)
         else .num (a / b))
  | .num _, .pinf => .ok (.num 0)
  | .num _, .minf => .ok (.num 0)
  | .pinf, .num b => .ok (if b < 0 then .minf else .pinf)
  | .minf, .num b => .ok (if b < 0 then .pinf else .minf)
  | .pinf, .pinf => .ok .nan
  | .pinf, .minf => .ok .nan
  | .minf, .pinf => .ok .nan
  | .minf, .minf => .ok .nan

/-- Floor applied to a cell (for floor division). -/
def Cell.floorC : Cell → Cell
  | .num q => .num (⌊q⌋ : ℤ)
  | c => c

/-- Floor division, modelled as the floor of the true quotient. -/
def Cell.idivE (a b : Cell) : Except String Cell := do
  pure (Cell.floorC (← Cell.divE a b))

/-- Python-convention modulo on finite values; combinations involving
infinities are approximated by `NaN`. -/
def Cell.modE : Cell → Cell → Except String Cell
  | .str _, _ => .error "invalid string operand"
  | _, .str _ => .error "invalid string operand"
  | .num a, .num b =>
    .ok (if b = 0 then .nan else .num (a - b * (⌊a / b⌋ : ℤ)))
  | _, _ => .ok .nan

/-- Power.  Exact for integer exponents on finite bases; other cases are
approximated by `NaN` (a noted model limitation — irrational results are
not representable over `ℚ`). -/
def Cell.powE : Cell → Cell → Except String Cell
  | .str _, _ => .error "invalid string operand"
  | _, .str _ => .error "invalid string operand"
  | .num a, .num b =>
    .ok (if b.den = 1 then
           if b.num ≥ 0 then .num (a ^ b.num.toNat)
           else if a = 0 then .pinf
           else .num (1 / a ^ (-b.num).toNat)
         else .nan)
  | _, _ => .ok .nan

/-- Evaluate an `Ast` for row `i` of the frame (element-wise semantics:
each row is evaluated independently). -/
def evalAst (df : Panel) (i : Nat) : Ast → Except String Cell
  | .lit c => .ok c
  | .col s =>
    match df.getCol s with
    | some col => .ok (col.getD i Cell.nan)
    | none => .error ("name not defined: " ++ s)
  | .add a b => do Cell.addE (← evalAst df i a) (← evalAst df i b)
  | .sub a b => do Cell.subE (← evalAst df i a) (← evalAst df i b)
  | .mul a b => do Cell.mulE (← evalAst df i a) (← evalAst df i b)
  | .div a b => do Cell.divE (← evalAst df i a) (← evalAst df i b)
  | .idiv a b => do Cell.idivE (← evalAst df i a) (← evalAst df i b)
  | .mod a b => do Cell.modE (← evalAst df i a) (← evalAst df i b)
  | .pow a b => do Cell.powE (← evalAst df i a) (← evalAst df i b)
  | .neg a => do Cell.negE (← evalAst df i a)

/-- The Python-side tokenizer used by the expression engine (fuel-driven
state machine).  Unlike `tokenize`, it merges `**` and `//` into single
tokens, accepts leading-dot floats, and *fails* on characters or
juxtapositions outside the modelled fragment instead of skipping them. -/
def pyScanF : Nat → SMode → List Char → List Char → Except String (List String)
  | 0, _, _, _ => .error "fuel exhausted"
  | _ + 1, .idle, _, [] => .ok []
  | _ + 1, .ident, cur, [] => .ok [String.mk cur.reverse]
  | _ + 1, .intg, cur, [] => .ok [String.mk cur.reverse]
  | _ + 1, .frac, cur, [] => .ok [String.mk cur.reverse]
  | f + 1, .idle, _, c :: cs =>
    if isPyWs c then pyScanF f .idle [] cs
    else if isIdentStart c then pyScanF f .ident [c] cs
    else if c.isDigit then pyScanF f .intg [c] cs
    else if c = '.' then
      match cs with
      | c2 :: _ =>
        if c2.isDigit then pyScanF f .frac ['.'] cs
        else .error "invalid syntax: ."
      | [] => .error "invalid syntax: ."
    else if c = '*' then
      match cs with
      | '*' :: cs2 => (pyScanF f .idle [] cs2).map (fun ts => "**" :: ts)
      | _ => (pyScanF f .idle [] cs).map (fun ts => "*" :: ts)
    else if c = '/' then
      match cs with
      | '/' :: cs2 => (pyScanF f .idle [] cs2).map (fun ts => "//" :: ts)
      | _ => (pyScanF f .idle [] cs).map (fun ts => "/" :: ts)
    else if c = '+' || c = '-' || c = '(' || c = ')' || c = '%' then
      (pyScanF f .idle [] cs).map (fun ts => String.mk [c] :: ts)
    else .error ("unsupported character: " ++ String.mk [c])
  | f + 1, .ident, cur, c :: cs =>
    if isIdentCont c then pyScanF f .ident (c :: cur) cs
    else if c = '.' then .error "attribute access not supported"
    else (pyScanF f .idle [] (c :: cs)).map (fun ts => String.mk cur.reverse :: ts)
  | f + 1, .intg, cur, c :: cs =>
    if c.isDigit then pyScanF f .intg (c :: cur) cs
    else if c = '.' then pyScanF f .frac (c :: cur) cs
    else if isIdentStart c then .error "invalid decimal literal"
    else (pyScanF f .idle [] (c :: cs)).map (fun ts => String.mk cur.reverse :: ts)
  | f + 1, .frac, cur, c :: cs =>
    if c.isDigit then pyScanF f .frac (c :: cur) cs
    else if c = '.' || isIdentStart c then .error "invalid decimal literal"
    else (pyScanF f .idle [] (c :: cs)).map (fun ts => String.mk cur.reverse :: ts)

/-- Tokenization of an expression by the engine's (Python) tokenizer. -/
def pyTokenize (s : String) : Except String (List String) :=
  pyScanF (2 * s.data.length + 2) .idle [] s.data

/-- A token that starts like a numeric literal. -/
def isNumTok (t : String) : Bool :=
  match t.data with
  | c :: _ => c.isDigit || c = '.'
  | [] => false

/-- A token that starts like an identifier. -/
def isIdentTok (t : String) : Bool :=
  match t.data with
  | c :: _ => isIdentStart c
  | [] => false

/-- Multiplicative operator tokens: `* /`, and with the extended (Python)
grammar also `// %`. -/
def mulOps (ext : Bool) : List String :=
  if ext then ["*", "/", "//", "%"] else ["*", "/"]

/-- Build the `Ast` node for a binary operator token. -/
def mkBin (t : String) (a b : Ast) : Ast :=
  if t = "+" then .add a b
  else if t = "-" then .sub a b
  else if t = "*" then .mul a b
  else if t = "/" then .div a b
  else if t = "//" then .idiv a b
  else .mod a b

mutual

/-- `expr := term ((+|-) term)*` — fuel-driven recursive descent.  With
`ext = true` this is the arithmetic fragment of the engine's (Python)
grammar; with `ext = false` the extra productions (unary sign, `**`, `//`,
`%`) are disabled, leaving exactly the `+ - * / ( )` grammar with `* /`
binding before `+ -` that the specification prescribes. -/
def pExpr (ext : Bool) : Nat → List String → Option (Ast × List String)
  | 0, _ => none
  | f + 1, ts =>
    match pTerm ext f ts with
    | some (a, r) => pExprLoop ext f a r
    | none => none

def pExprLoop (ext : Bool) : Nat → Ast → List String → Option (Ast × List String)
  | 0, _, _ => none
  | _ + 1, a, [] => some (a, [])
  | f + 1, a, t :: ts =>
    if t = "+" || t = "-" then
      match pTerm ext f ts with
      | some (b, r) => pExprLoop ext f (mkBin t a b) r
      | none => none
    else some (a, t :: ts)

/-- `term := factor ((*|/|...) factor)*`. -/
def pTerm (ext : Bool) : Nat → List String → Option (Ast × List String)
  | 0, _ => none
  | f + 1, ts =>
    match pFactor ext f ts with
    | some (a, r) => pTermLoop ext f a r
    | none => none

def pTermLoop (ext : Bool) : Nat → Ast → List String → Option (Ast × List String)
  | 0, _, _ => none
  | _ + 1, a, [] => some (a, [])
  | f + 1, a, t :: ts =>
    if t ∈ mulOps ext then
      match pFactor ext f ts with
      | some (b, r) => pTermLoop ext f (mkBin t a b) r
      | none => none
    else some (a, t :: ts)

/-- Python's `factor: (+|-) factor | power`; without the extension the
unary-sign production is absent and this is just the atom level. -/
def pFactor (ext : Bool) : Nat → List String → Option (Ast × List String)
  | 0, _ => none
  | f + 1, ts =>
    match ts with
    | t :: ts2 =>
      if ext && t = "-" then
        match pFactor ext f ts2 with
        | some (a, r) => some (.neg a, r)
        | none => none
      else if ext && t = "+" then pFactor ext f ts2
      else pPower ext f ts
    | [] => none

/-- Python's `power: atom [** factor]`; without the extension no `**` is
ever consumed and this is the identity on the atom level. -/
def pPower (ext : Bool) : Nat → List String → Option (Ast × List String)
  | 0, _ => none
  | f + 1, ts =>
    match pAtom ext f ts with
    | some (a, r) =>
      match r with
      | t :: r2 =>
        if ext && t = "**" then
          match pFactor ext f r2 with
          | some (b, r3) => some (.pow a b, r3)
          | none => none
        else some (a, t :: r2)
      | [] => some (a, [])
    | none => none

/-- `atom := number | name | ( expr )`. -/
def pAtom (ext : Bool) : Nat → List String → Option (Ast × List String)
  | 0, _ => none
  | f + 1, t :: ts =>
    if t = "(" then
      match pExpr ext f ts with
      | some (a, r) =>
        match r with
        | u :: r2 => if u = ")" then some (a, r2) else none
        | [] => none
      | none => none
    else if isNumTok t then
      match pyFloat t with
      | some c => some (.lit c, ts)
      | none => none
    else if isIdentTok t then some (.col t, ts)
    else none
  | _ + 1, [] => none

end

/-- Fuel that always suffices for the token list. -/
def parseFuel (ts : List String) : Nat := 5 * ts.length + 5

/-- Parse a complete token list (no trailing tokens allowed). -/
def pParseTop (ext : Bool) (ts : List String) : Option Ast :=
  match pExpr ext (parseFuel ts) ts with
  | some (a, []) => some a
  | _ => none

/-- Modelled from the spec (for comparison with the engine): the parser of
the `+ - * / ( )` arithmetic grammar of §4.1 — `expr := term ((+|-) term)*`,
`term := factor ((*|/) factor)*`, `factor := number | field | ( expr )` —
i.e. standard precedence with `* /` binding before `+ -`. -/
def specGrammarParse (ts : List String) : Option Ast := pParseTop false ts

/-- Evaluate the expression engine on a full expression string: tokenize
with the Python tokenizer, parse with the extended grammar, then evaluate
row by row.  This models `df.eval(formula, engine="numexpr")` (restricted
to the arithmetic fragment; see the section comment). -/
def pandasEvalCol (df : Panel) (formula : String) : Except String Col :=
  match pyTokenize formula with
  | .error e => .error e
  | .ok ts =>
    match pParseTop true ts with
    | some ast => (List.range df.nrows).mapM (fun i => evalAst df i ast)
    | none => .error "could not parse expression"

/-- `safe_eval_formula(df, name, formula)` from `formula_parser.py`:
re-validate, then evaluate via the engine and assign the result to column
`name`; validation failure and evaluation failure raise `ValueError`. -/
def safe_eval_formula (df : Panel) (name formula : String) : Except String Panel :=
  let v := validate_formula formula
  if !v.1 then .error ("公式驗證失敗: " ++ v.2)
  else
    match pandasEvalCol df formula with
    | .ok c => .ok (df.setCol name c)
    | .error e => .error ("公式執行失敗: " ++ e)

example : pyTokenize "close ** 2" = .ok ["close", "**", "2"] := by with_unfolding_all decide
example : pyTokenize "close @ 3" = .error "unsupported character: @" := by with_unfolding_all decide
example : pParseTop true ["close", "**", "2"] =
    some (.pow (.col "close") (.lit (.num 2))) := by with_unfolding_all decide
example : specGrammarParse ["close", "*", "*", "2"] = none := by with_unfolding_all decide
example : specGrammarParse ["close", "*", "2"] =
    some (.mul (.col "close") (.lit (.num 2))) := by with_unfolding_all decide
example : safe_eval_formula [("ticker_id", [Cell.str "A"]), ("close", [Cell.num 4])]
    "x" "close ** 2" =
    .ok [("ticker_id", [Cell.str "A"]), ("close", [Cell.num 4]), ("x", [Cell.num 16])] := by
  with_unfolding_all decide
example : pandasEvalCol [("close", [Cell.num 1])] "close / 0" = .ok [Cell.pinf] := by with_unfolding_all decide

/-! ### `operators.py`: comparison and cross operators -/

/-- The five comparison operators of `OPERATOR_MAP`. -/
inductive CmpOp where
  | gt
  | lt
  | eq
  | ge
  | le
deriving DecidableEq, Repr

/-- `OPERATOR_MAP` from `operators.py`. -/
def OPERATOR_MAP (s : String) : Option CmpOp :=
  if s = ">" then some .gt
  else if s = "<" then some .lt
  else if s = "=" then some .eq
  else if s = ">=" then some .ge
  else if s = "<=" then some .le
  else none

/-- Strict order on numeric cells (`-inf < finite < +inf`); callers handle
`NaN` and strings separately. -/
def numLt : Cell → Cell → Bool
  | .num a, .num b => a < b
  | .num _, .pinf => true
  | .minf, .num _ => true
  | .minf, .pinf => true
  | _, _ => false

/-- Pandas `==` semantics as a total Boolean: value equality on matching
kinds, `False` on `NaN` (IEEE) and on mismatched kinds. -/
def cellEqB : Cell → Cell → Bool
  | .num a, .num b => a = b
  | .pinf, .pinf => true
  | .minf, .minf => true
  | .str a, .str b => a = b
  | _, _ => false

/-- One element of a pandas vectorised comparison.  `NaN` (missing)
compares `False` under every operator; strings compare with strings
lexicographically; ordering a string against a number raises `TypeError`
(as object-dtype pandas columns do). -/
def cellCmp (op : CmpOp) : Cell → Cell → Except String Bool
  | .str a, .str b =>
    .ok (match op with
         | .gt => decide (b < a)
         | .lt => decide (a < b)
         | .eq => a = b
         | .ge => decide (¬ a < b)
         | .le => decide (¬ b < a))
  | a, b =>
    match op with
    | .eq => .ok (cellEqB a b)
    | _ =>
      match a, b with
      | .str _, _ => .error "TypeError: ordering str against numeric"
      | _, .str _ => .error "TypeError: ordering str against numeric"
      | .nan, _ => .ok false
      | _, .nan => .ok false
      | x, y =>
        .ok (match op with
             | .gt => numLt y x
             | .lt => numLt x y
             | .ge => !numLt x y
             | .le => !numLt y x
             | .eq => cellEqB x y)

/-- Vectorised comparison of two aligned columns (`series_a < series_b`
etc.), including the trailing `.fillna(False)`: the result is a plain
Boolean list with no missing entries. -/
def compareCols (op : CmpOp) : Col → Col → Except String (List Bool)
  | [], _ => .ok []
  | _ :: _, [] => .ok []
  | a :: as, b :: bs =>
    match cellCmp op a b with
    | .error e => .error e
    | .ok h =>
      match compareCols op as bs with
      | .error e => .error e
      | .ok t => .ok (h :: t)

/-- Comparison of a column against a broadcast scalar. -/
def compareScalar (op : CmpOp) (c : Col) (s : Cell) : Except String (List Bool) :=
  compareCols op c (List.replicate c.length s)

/-- First-match lookup in the accumulator of the grouped shift. -/
def lookupCell : List (Cell × Cell) → Cell → Option Cell
  | [], _ => none
  | (k, v) :: rest, key => if k = key then some v else lookupCell rest key

/-- `df.groupby("ticker_id")[col].shift(1)`: for each row, the value of
`col` at the nearest earlier row with the same group key, `NaN` when there
is none.  A `NaN` group key never matches (pandas drops `NaN` keys from
groups). -/
def shiftAux (acc : List (Cell × Cell)) : Col → Col → Col
  | [], _ => []
  | _ :: _, [] => []
  | k :: ks, v :: vs =>
    if k = Cell.nan then Cell.nan :: shiftAux acc ks vs
    else
      match lookupCell acc k with
      | some pv => pv :: shiftAux ((k, v) :: acc) ks vs
      | none => Cell.nan :: shiftAux ((k, v) :: acc) ks vs

/-- Grouped previous-value column (see `shiftAux`). -/
def shiftInGroup (keys vals : Col) : Col := shiftAux [] keys vals

/-- The `target` argument of the cross operators: a column name (`str`) or
a numeric scalar (`float`, which may be `nan`/`inf` after conversion). -/
inductive Target where
  | col (s : String)
  | scalar (c : Cell)
deriving DecidableEq, Repr

/-- `Option` to `Except` with a `KeyError`-style message. -/
def optE (o : Option α) (msg : String) : Except String α :=
  match o with
  | some a => .ok a
  | none => .error msg

/-- `cross_up(df, field, target)` from `operators.py`:
`prev_field < prev_target (or target) AND field >= target`, with
`.fillna(False)` (missing previous values yield `False`). -/
def crossGen (opPrev opCur : CmpOp) (df : Panel) (field : String)
    (target : Target) : Except String (List Bool) :=
  match df.getCol "ticker_id" with
  | none => .error "KeyError: ticker_id"
  | some tickers =>
    match df.getCol field with
    | none => .error ("KeyError: " ++ field)
    | some fcol =>
      let prevF := shiftInGroup tickers fcol
      match target with
      | .col t =>
        match df.getCol t with
        | none => .error ("KeyError: " ++ t)
        | some tcol =>
          let prevT := shiftInGroup tickers tcol
          match compareCols opPrev prevF prevT with
          | .error e => .error e
          | .ok m1 =>
            match compareCols opCur fcol tcol with
            | .error e => .error e
            | .ok m2 => .ok (List.zipWith and m1 m2)
      | .scalar s =>
        match compareScalar opPrev prevF s with
        | .error e => .error e
        | .ok m1 =>
          match compareScalar opCur fcol s with
          | .error e => .error e
          | .ok m2 => .ok (List.zipWith and m1 m2)

def cross_up (df : Panel) (field : String) (target : Target) :
    Except String (List Bool) :=
  crossGen .lt .ge df field target

/-- `cross_down(df, field, target)`: the mirror of `cross_up` with `>` on
the previous values and `<=` on the current ones. -/
def cross_down (df : Panel) (field : String) (target : Target) :
    Except String (List Bool) :=
  crossGen .gt .le df field target

/-! ### `screener.py`: `apply_rule` and the screen orchestration -/

/-- The pydantic `Union[float, str]` of `Rule.target_value`. -/
inductive TVal where
  | fnum (q : ℚ)
  | fstr (s : String)
deriving DecidableEq, Repr

/-- Python `str(target_value)` (for the numeric case the exact rendering is
irrelevant to every claim: it is only ever used as a column-name lookup). -/
def pyStrTV : TVal → String
  | .fstr s => s
  | .fnum q => toString q

/-- Python `float(target_value)`: the identity on numbers, `float(s)` on
strings (`ValueError` when unparsable). -/
def pyFloatTV : TVal → Except String Cell
  | .fnum q => .ok (.num q)
  | .fstr s => optE (pyFloat s) ("could not convert string to float: " ++ s)

/-- A screening rule (`app/schemas/screen.py`; the `type` field is ignored
by the engine). -/
structure Rule where
  field : String
  operator : String
  target_type : String
  target_value : TVal
deriving DecidableEq, Repr

/-- `apply_rule(df, rule_dict)` from `screener.py`. -/
def apply_rule (df : Panel) (rule : Rule) : Except String (List Bool) :=
  match df.getCol rule.field with
  | none => .ok (List.replicate df.nrows true)
  | some seriesA =>
    if rule.operator = "CROSS_UP" || rule.operator = "CROSS_DOWN" then
      if rule.target_type = "field" then
        (if rule.operator = "CROSS_UP" then cross_up else cross_down)
          df rule.field (Target.col (pyStrTV rule.target_value))
      else
        match pyFloatTV rule.target_value with
        | .error e => .error e
        | .ok s =>
          (if rule.operator = "CROSS_UP" then cross_up else cross_down)
            df rule.field (Target.scalar s)
    else
      match OPERATOR_MAP rule.operator with
      | none => .ok (List.replicate df.nrows true)
      | some op =>
        if rule.target_type = "field" then
          match df.getCol (pyStrTV rule.target_value) with
          | none => .ok (List.replicate df.nrows true)
          | some tcol => compareCols op seriesA tcol
        else
          match pyFloatTV rule.target_value with
          | .error e => .error e
          | .ok s => compareScalar op seriesA s

/-- A custom formula of the request (`{name, formula}`). -/
structure Formula where
  name : String
  formula : String
deriving DecidableEq, Repr

/-- The screening request (`logic`, ordered rules, ordered formulas). -/
structure ScreenRequest where
  logic : String
  rules : List Rule
  custom_formulas : List Formula
deriving DecidableEq, Repr

/-- Some rule uses a cross operator, so a multi-day panel is loaded. -/
def needs_multi_day (req : ScreenRequest) : Bool :=
  req.rules.any (fun r => r.operator = "CROSS_UP" || r.operator = "CROSS_DOWN")

/-- The formula loop of `run_screen`: each formula is applied in order and
a failing formula is skipped (its `ValueError` is caught and logged). -/
def applyFormulas (df : Panel) : List Formula → Panel
  | [] => df
  | f :: fs =>
    match safe_eval_formula df f.name f.formula with
    | .ok df2 => applyFormulas df2 fs
    | .error _ => applyFormulas df fs

/-- `df["date"].max()`: the maximum over the numeric cells of the column,
skipping `NaN` (and non-numeric cells); `NaN` when there is none. -/
def colMax (c : Col) : Cell :=
  c.foldl
    (fun acc x =>
      match x with
      | .num _ => if acc = Cell.nan then x else if numLt acc x then x else acc
      | .pinf => .pinf
      | .minf => if acc = Cell.nan then .minf else acc
      | _ => acc)
    Cell.nan

/-- The mask `df["date"] == latest_date`. -/
def eqMask (dcol : Col) (m : Cell) : List Bool := dcol.map (fun c => cellEqB c m)

/-- Mask composition: `AND` folds with conjunction, anything else (i.e.
`OR`) with disjunction; the empty rule list gives an all-`true` mask. -/
def composeMasks (logic : String) (masks : List (List Bool)) (nrows : Nat) :
    List Bool :=
  match masks with
  | [] => List.replicate nrows true
  | m :: ms =>
    if logic = "AND" then ms.foldl (fun a b => List.zipWith and a b) m
    else ms.foldl (fun a b => List.zipWith or a b) m

/-- Indices selected by a Boolean mask, in order. -/
def selIdx (mask : List Bool) : List Nat :=
  (List.range mask.length).filter (fun i => mask.getD i false)

/-- Restrict a column to the given row indices. -/
def applyIdxCol (col : Col) (idx : List Nat) : Col :=
  idx.map (fun i => col.getD i Cell.nan)

/-- Restrict a frame to the given row indices (`df[mask]` and
`drop_duplicates` are both instances). -/
def Panel.restrict (df : Panel) (idx : List Nat) : Panel :=
  df.map (fun p => (p.1, applyIdxCol p.2 idx))

/-- Row `i` has no later row with the same key (`drop_duplicates(...,
keep="last")` keeps exactly these rows). -/
def noLaterDup (keys : Col) (i : Nat) : Bool :=
  ((List.range keys.length).filter (fun j => i < j)).all
    (fun j => if keys.getD j Cell.nan = keys.getD i Cell.nan then false else true)

/-- Indices kept by `drop_duplicates(subset=["ticker_id"], keep="last")`. -/
def keepLastIdx (keys : Col) : List Nat :=
  (List.range keys.length).filter (noLaterDup keys)

/-- The mask/filter/deduplication core of `run_screen` (everything between
the formula loop and result formatting).  Returns the post-formula frame
and the filtered, deduplicated frame. -/
def screenFilterPost (req : ScreenRequest) (df1 : Panel) (dinfo : Option Col) :
    Except String (Panel × Panel) :=
  match req.rules.mapM (fun r => apply_rule df1 r) with
  | .error e => .error e
  | .ok masks =>
    let combined := composeMasks req.logic masks df1.nrows
    let combined2 :=
      match dinfo with
      | some dcol => List.zipWith and combined (eqMask dcol (colMax dcol))
      | none => combined
    let filtered := Panel.restrict df1 (selIdx combined2)
    match filtered.getCol "ticker_id" with
    | none => .error "KeyError: ticker_id"
    | some tcol => .ok (df1, Panel.restrict filtered (keepLastIdx tcol))

def screenFilter (req : ScreenRequest) (df : Panel) :
    Except String (Panel × Panel) :=
  let df1 := applyFormulas df req.custom_formulas
  if needs_multi_day req then
    match df1.getCol "date" with
    | none => .error "KeyError: date"
    | some dcol => screenFilterPost req df1 (some dcol)
  else screenFilterPost req df1 none

/-! ### Result formatting and the API boundary -/

/-- Round half-to-even at 4 decimal places (Python's `round(x, 4)`,
idealised over exact rationals). -/
def pyRound4 (q : ℚ) : ℚ :=
  let x := q * 10000
  let n : ℤ := ⌊x⌋
  let r := x - n
  let k : ℤ :=
    if r < 1 / 2 then n
    else if r > 1 / 2 then n + 1
    else if n % 2 = 0 then n else n + 1
  (k : ℚ) / 10000

/-- Truncation toward zero (Python `int(float)`). -/
def truncToInt (q : ℚ) : ℤ := if q ≥ 0 then ⌊q⌋ else ⌈q⌉

/-- Python `int(s)` on a string: optional sign and decimal digits
(whitespace stripped); `none` models `ValueError`. -/
def pyIntOfString (s : String) : Option ℤ :=
  let cs := (s.data.dropWhile isPyWs).reverse.dropWhile isPyWs |>.reverse
  let core : List Char → Option ℤ := fun ds =>
    match ds with
    | [] => none
    | _ =>
      if ds.all Char.isDigit then
        some (ds.foldl (fun a c => a * 10 + ((c.toNat : ℤ) - ('0'.toNat : ℤ))) 0)
      else none
  match cs with
  | '+' :: cs2 => core cs2
  | '-' :: cs2 => (core cs2).map Neg.neg
  | _ => core cs

/-- `_safe_float(val)` from `screener.py`: `None`/`NaN` become `None`,
numbers are rounded to 4 decimals, non-numeric strings become `None`. -/
def _safe_float : Option Cell → Option Cell
  | none => none
  | some .nan => none
  | some (.num q) => some (.num (pyRound4 q))
  | some .pinf => some .pinf
  | some .minf => some .minf
  | some (.str s) =>
    match pyFloat s with
    | some (.num q) => some (.num (pyRound4 q))
    | some c => some c
    | none => none

/-- `_safe_int(val)` from `screener.py`.  `None`/`NaN` become `None` and
parse failures are caught, but `int(±inf)` raises `OverflowError`, which
`_safe_int` does *not* catch (it only catches `ValueError`/`TypeError`). -/
def _safe_int : Option Cell → Except String (Option ℤ)
  | none => .ok none
  | some .nan => .ok none
  | some (.num q) => .ok (some (truncToInt q))
  | some .pinf => .error "OverflowError: cannot convert float infinity to integer"
  | some .minf => .error "OverflowError: cannot convert float infinity to integer"
  | some (.str s) => .ok (pyIntOfString s)

/-- `str(cell)` for the string fields of the result (numeric renderings
are irrelevant to every claim). -/
def pyStrOfCell : Cell → String
  | .str s => s
  | .num q => toString q
  | .nan => "nan"
  | .pinf => "inf"
  | .minf => "-inf"

/-- `row.get(name)`: the cell of the row, `none` when the column is
absent. -/
def rowGet (df : Panel) (i : Nat) (name : String) : Option Cell :=
  (df.getCol name).map (fun col => col.getD i Cell.nan)

/-- One matched ticker of the response (`TickerResult` in
`app/schemas/screen.py`). -/
structure TickerResult where
  ticker_id : String
  name : String
  market_type : Option Cell
  industry : Option Cell
  close : Option Cell
  change_percent : Option Cell
  volume : Option ℤ
  ma5 : Option Cell
  ma10 : Option Cell
  ma20 : Option Cell
  ma60 : Option Cell
  rsi14 : Option Cell
  pe_ratio : Option Cell
  eps : Option Cell
  foreign_buy : Option ℤ
  trust_buy : Option ℤ
  margin_balance : Option ℤ
deriving DecidableEq, Repr

/-- The per-row construction of a `TickerResult` in `run_screen`'s result
loop. -/
def formatRow (df : Panel) (i : Nat) : Except String TickerResult := do
  let volume ← _safe_int (rowGet df i "volume")
  let foreign_buy ← _safe_int (rowGet df i "foreign_buy")
  let trust_buy ← _safe_int (rowGet df i "trust_buy")
  let margin_balance ← _safe_int (rowGet df i "margin_balance")
  .ok
    { ticker_id := pyStrOfCell ((rowGet df i "ticker_id").getD (Cell.str ""))
      name := pyStrOfCell ((rowGet df i "name").getD (Cell.str ""))
      market_type := rowGet df i "market_type"
      industry := rowGet df i "industry"
      close := _safe_float (rowGet df i "close")
      change_percent := _safe_float (rowGet df i "change_percent")
      volume := volume
      ma5 := _safe_float (rowGet df i "ma5")
      ma10 := _safe_float (rowGet df i "ma10")
      ma20 := _safe_float (rowGet df i "ma20")
      ma60 := _safe_float (rowGet df i "ma60")
      rsi14 := _safe_float (rowGet df i "rsi14")
      pe_ratio := _safe_float (rowGet df i "pe_ratio")
      eps := _safe_float (rowGet df i "eps")
      foreign_buy := foreign_buy
      trust_buy := trust_buy
      margin_balance := margin_balance }

/-- The screening response (`matched_count`, `data`, `logic`). -/
structure ScreenResponse where
  matched_count : Nat
  data : List TickerResult
  logic : String
deriving DecidableEq, Repr

/-- `run_screen(request, db)` from `screener.py`, with the loaded panel
supplied by the external loader: empty panel short-circuits, formulas are
applied (failures skipped), rules are evaluated and composed, multi-day
screens are restricted to the latest date and deduplicated per ticker, and
the surviving rows are formatted. -/
def runScreenFromPanel (req : ScreenRequest) (df : Panel) :
    Except String ScreenResponse :=
  if df.isEmpty then .ok ⟨0, [], req.logic⟩
  else
    match screenFilter req df with
    | .error e => .error e
    | .ok fp =>
      match (List.range fp.2.nrows).mapM (fun i => formatRow fp.2 i) with
      | .error e => .error e
      | .ok results => .ok ⟨results.length, results, req.logic⟩

/-- `run_screen` including the loader call (the loader's outcome is passed
in; a loader exception propagates out of `run_screen`). -/
def runScreen (req : ScreenRequest) (loadRes : Except String Panel) :
    Except String ScreenResponse :=
  match loadRes with
  | .error e => .error e
  | .ok df => runScreenFromPanel req df

/-- `screen_stocks` from `api/v1/screen.py`: `run_screen` wrapped in
`try/except Exception`, every failure becoming the empty response. -/
def screen_stocks (req : ScreenRequest) (loadRes : Except String Panel) :
    ScreenResponse :=
  match runScreen req loadRes with
  | .ok r => r
  | .error _ => ⟨0, [], req.logic⟩

example :
    apply_rule [("ticker_id", [Cell.str "A"]), ("close", [Cell.num 1])]
      ⟨"close", "CROSS_UP", "field", .fstr "ma99"⟩ = .error "KeyError: ma99" := by
  with_unfolding_all decide

example :
    apply_rule [("ticker_id", [Cell.str "A"]), ("close", [Cell.num 1])]
      ⟨"nope", "CROSS_UP", "field", .fstr "ma99"⟩ = .ok [true] := by
  with_unfolding_all decide

example :
    cross_up
      [("ticker_id", [Cell.str "X", Cell.str "X"]),
       ("close", [Cell.num 90, Cell.num 105]),
       ("ma5", [Cell.num 100, Cell.num 100])]
      "close" (Target.col "ma5") = .ok [false, true] := by
  with_unfolding_all decide

example :
    screen_stocks ⟨"AND", [⟨"close", ">", "value", .fnum 100⟩], []⟩
      (.error "db down") = ⟨0, [], "AND"⟩ := by
  with_unfolding_all decide

/-! ### Shared lemmas -/

theorem exceptBind_ok {α β : Type} {x : Except String α} {f : α → Except String β}
    {b : β} : Except.bind x f = .ok b ↔ ∃ a, x = .ok a ∧ f a = .ok b := by
  cases x <;> simp [Except.bind]

theorem optE_ok {α : Type} {o : Option α} {msg : String} {a : α} :
    optE o msg = .ok a ↔ o = some a := by
  cases o <;> simp [optE]

theorem ws_not_tokenStart {c : Char} (h : isPyWs c = true) : isTokenStart c = false := by
  simp only [isPyWs, Bool.or_eq_true, decide_eq_true_eq] at h
  rcases h with ((((h | h) | h) | h) | h) | h <;> subst h <;> decide

theorem pyStrip_eq_empty_iff (s : String) :
    pyStrip s = "" ↔ ∀ c ∈ s.data, isPyWs c = true := by
  unfold pyStrip
  constructor
  · intro h c hc
    have hl : ((s.data.dropWhile isPyWs).reverse.dropWhile isPyWs).reverse = [] := by
      have h2 := congrArg String.data h
      simpa using h2
    rw [List.reverse_eq_nil_iff, List.dropWhile_eq_nil_iff] at hl
    have hsplit : s.data.takeWhile isPyWs ++ s.data.dropWhile isPyWs = s.data :=
      List.takeWhile_append_dropWhile isPyWs s.data
    rw [← hsplit] at hc
    rcases List.mem_append.mp hc with h1 | h2
    · exact List.mem_takeWhile_imp h1
    · exact hl c (List.mem_reverse.mpr h2)
  · intro h
    have h1 : s.data.dropWhile isPyWs = [] :=
      List.dropWhile_eq_nil_iff.mpr (fun c hc => h c hc)
    rw [h1]
    rfl

theorem scanSM_idle_nil (cs : List Char) (h : ∀ c ∈ cs, isTokenStart c = false) :
    scanSM .idle [] cs = [] := by
  induction cs with
  | nil => rfl
  | cons c cs ih =>
    have hc := h c (by simp)
    simp only [isTokenStart, Bool.or_eq_false_iff] at hc
    simp only [scanSM, hc.1.1, hc.1.2, hc.2, if_false]
    exact ih (fun x hx => h x (List.mem_cons_of_mem _ hx))

theorem tokenize_ne_nil_strip (s : String) (h : tokenize s ≠ []) : pyStrip s ≠ "" := by
  intro hstrip
  exact h (scanSM_idle_nil _ (fun c hc =>
    ws_not_tokenStart ((pyStrip_eq_empty_iff s).mp hstrip c hc)))

theorem checkTokens_eq_none (ts : List String)
    (h : ∀ t ∈ ts, t ∈ ALLOWED_OPERATORS ∨ is_number t = true ∨ t ∈ ALLOWED_FIELDS) :
    checkTokens ts = none := by
  induction ts with
  | nil => rfl
  | cons t ts ih =>
    have ht := h t (by simp)
    unfold checkTokens
    split_ifs with h1 h2 h3
    · exact ih (fun x hx => h x (List.mem_cons_of_mem _ hx))
    · exact ih (fun x hx => h x (List.mem_cons_of_mem _ hx))
    · exact ih (fun x hx => h x (List.mem_cons_of_mem _ hx))
    · rcases ht with hh | hh | hh
      · exact absurd hh h1
      · exact absurd hh h2
      · exact absurd hh h3

theorem checkTokens_some_of_bad (ts : List String) (t : String) (hmem : t ∈ ts)
    (h1 : t ∉ ALLOWED_OPERATORS) (h2 : is_number t = false) (h3 : t ∉ ALLOWED_FIELDS) :
    ∃ u, u ∈ ts ∧ checkTokens ts = some u ∧
      u ∉ ALLOWED_OPERATORS ∧ is_number u = false ∧ u ∉ ALLOWED_FIELDS := by
  induction ts with
  | nil => cases hmem
  | cons s ts ih =>
    unfold checkTokens
    split_ifs with g1 g2 g3
    · rcases List.mem_cons.mp hmem with rfl | hm
      · exact absurd g1 h1
      · rcases ih hm with ⟨u, hu1, hu2, hu3⟩
        exact ⟨u, List.mem_cons_of_mem _ hu1, hu2, hu3⟩
    · rcases List.mem_cons.mp hmem with rfl | hm
      · rw [g2] at h2; cases h2
      · rcases ih hm with ⟨u, hu1, hu2, hu3⟩
        exact ⟨u, List.mem_cons_of_mem _ hu1, hu2, hu3⟩
    · rcases List.mem_cons.mp hmem with rfl | hm
      · exact absurd g3 h3
      · rcases ih hm with ⟨u, hu1, hu2, hu3⟩
        exact ⟨u, List.mem_cons_of_mem _ hu1, hu2, hu3⟩
    · refine ⟨s, by simp, rfl, g1, ?_, g3⟩
      exact Bool.not_eq_true _ ▸ (by simpa using g2)

/-! ### Claim C10 -/

/-- C10: `validate_formula` rejects the empty expression, every expression
consisting only of whitespace, and in general every expression whose
tokenization is empty — it never accepts such an input. -/
theorem C10_empty_reject :
    (validate_formula "").1 = false ∧
    (∀ expr : String, (∀ c ∈ expr.data, isPyWs c = true) →
      (validate_formula expr).1 = false) ∧
    (∀ expr : String, tokenize expr = [] → (validate_formula expr).1 = false) := by
  refine ⟨by with_unfolding_all decide, ?_, ?_⟩
  · intro expr h
    have hs : pyStrip expr = "" := (pyStrip_eq_empty_iff expr).mpr h
    unfold validate_formula
    rw [if_pos hs]
  · intro expr h
    unfold validate_formula
    split_ifs with h1 h2
    · rfl
    · rfl
    · simp [h]

/-- C10 witness: a concrete expression (one foreign character, hence empty
tokenization) is rejected. -/
theorem C10_witness : (validate_formula "@").1 = false :=
  C10_empty_reject.2.2 "@" (by with_unfolding_all decide)

/-! ### Claim C4 -/

/-- C4 counterexample: `"close @ 3"` contains the character `'@'`, which is
not an identifier/number/operator/whitespace character, yet
`validate_formula` accepts the expression — the tokenizer silently skips
the foreign character instead of failing with a parse error. -/
theorem C4_counterexample :
    isTokenStart '@' = false ∧ isPyWs '@' = false ∧ '@' ∈ "close @ 3".data ∧
    validate_formula "close @ 3" = (true, "") := by
  with_unfolding_all decide

/-- C4 amended: foreign characters are silently ignored by the tokenizer;
`validate_formula` fails with the parse error only when no token at all can
be extracted — in particular it does reject every (nonempty, within the
length cap) expression consisting entirely of foreign characters. -/
theorem C4_amended (expr : String)
    (hne : expr ≠ "")
    (hlen : expr.length ≤ MAX_FORMULA_LENGTH)
    (hforeign : ∀ c ∈ expr.data, isTokenStart c = false ∧ isPyWs c = false) :
    validate_formula expr = (false, "公式解析失敗") := by
  have hdata : expr.data ≠ [] := by
    intro h
    apply hne
    apply String.ext
    rw [h]
  have hstrip : pyStrip expr ≠ "" := by
    intro h
    rcases List.exists_mem_of_ne_nil _ hdata with ⟨c, hc⟩
    have hw := (pyStrip_eq_empty_iff expr).mp h c hc
    rw [(hforeign c hc).2] at hw
    cases hw
  have htoks : tokenize expr = [] :=
    scanSM_idle_nil _ (fun c hc => (hforeign c hc).1)
  unfold validate_formula
  rw [if_neg hstrip, if_neg (by omega), if_pos htoks]

/-- C4 witness: the all-foreign expression `"@@"` is rejected with the
parse error. -/
theorem C4_witness : validate_formula "@@" = (false, "公式解析失敗") :=
  C4_amended "@@" (by with_unfolding_all decide) (by with_unfolding_all decide)
    (by with_unfolding_all decide)

/-! ### Claim C5 -/

/-- C5 counterexample: the single-space expression is built only from
allowed material (whitespace), has balanced parentheses, is within both the
length and token caps — the claim's premises all hold — yet
`validate_formula` rejects it (`"公式不可為空"`). -/
theorem C5_counterexample :
    (∀ c ∈ (" " : String).data,
      isPyWs c = true ∨ isOpChar c = true ∨ isIdentCont c = true ∨ c = '.') ∧
    (∀ t ∈ tokenize " ",
      t ∈ ALLOWED_OPERATORS ∨ is_number t = true ∨ t ∈ ALLOWED_FIELDS) ∧
    parenScan (tokenize " ") 0 = true ∧
    (" " : String).length ≤ MAX_FORMULA_LENGTH ∧
    (tokenize " ").length ≤ MAX_TOKEN_COUNT ∧
    (validate_formula " ").1 = false := by
  with_unfolding_all decide

/-- C5 amended: every expression built only from whitelisted fields,
numeric literals, operators `+ - * / ( )` and whitespace, with balanced
parentheses, length ≤ 500, at most 50 tokens, **and at least one token**
(i.e. not empty and not whitespace-only) is accepted by
`validate_formula`. -/
theorem C5_amended (expr : String)
    (hchar : ∀ c ∈ expr.data,
      isPyWs c = true ∨ isOpChar c = true ∨ isIdentCont c = true ∨ c = '.')
    (htok : ∀ t ∈ tokenize expr,
      t ∈ ALLOWED_OPERATORS ∨ is_number t = true ∨ t ∈ ALLOWED_FIELDS)
    (hbal : parenScan (tokenize expr) 0 = true)
    (hlen : expr.length ≤ MAX_FORMULA_LENGTH)
    (hcnt : (tokenize expr).length ≤ MAX_TOKEN_COUNT)
    (hne : tokenize expr ≠ []) :
    validate_formula expr = (true, "") := by
  have hstrip := tokenize_ne_nil_strip expr hne
  unfold validate_formula
  rw [if_neg hstrip, if_neg (by omega), if_neg hne, if_neg (by omega),
    checkTokens_eq_none _ htok, hbal]
  rfl

/-- C5 witness: a representative in-grammar expression is accepted. -/
theorem C5_witness : validate_formula "(ma5 + ma10) / 2" = (true, "") :=
  C5_amended "(ma5 + ma10) / 2" (by with_unfolding_all decide)
    (by with_unfolding_all decide) (by with_unfolding_all decide)
    (by with_unfolding_all decide) (by with_unfolding_all decide)
    (by with_unfolding_all decide)

/-! ### Claim C3 -/

/-- C3 counterexample: `"nan"` is an identifier token outside the 16-field
whitelist, yet `validate_formula` accepts it — `is_number` is Python's
`float()`, which parses `"nan"` (likewise `"inf"`/`"infinity"` in any
case), so such identifiers slip past the whitelist check. -/
theorem C3_counterexample :
    isIdentTok "nan" = true ∧ "nan" ∉ ALLOWED_FIELDS ∧
    tokenize "nan" = ["nan"] ∧ validate_formula "nan" = (true, "") := by
  with_unfolding_all decide

/-- C3 amended: an identifier token outside the whitelist causes
`validate_formula` to fail with the disallowed-token error naming the first
such token — *provided* the identifier is not parsed as a number by
Python's `float()` (i.e. is not a case-variant of `nan`/`inf`/`infinity`),
and the earlier length/token-count checks pass (those fire first). -/
theorem C3_amended (expr t : String)
    (hlen : expr.length ≤ MAX_FORMULA_LENGTH)
    (hcnt : (tokenize expr).length ≤ MAX_TOKEN_COUNT)
    (hmem : t ∈ tokenize expr)
    (hid : isIdentTok t = true)
    (hfield : t ∉ ALLOWED_FIELDS)
    (hnum : is_number t = false) :
    (validate_formula expr).1 = false ∧
    ∃ u, u ∈ tokenize expr ∧ u ∉ ALLOWED_OPERATORS ∧ is_number u = false ∧
      u ∉ ALLOWED_FIELDS ∧ (validate_formula expr).2 = "不允許的 token: " ++ u := by
  have hop : t ∉ ALLOWED_OPERATORS := by
    intro hmemop
    have : t = "+" ∨ t = "-" ∨ t = "*" ∨ t = "/" ∨ t = "(" ∨ t = ")" ∨ t = " " := by
      simpa [ALLOWED_OPERATORS] using hmemop
    rcases this with h | h | h | h | h | h | h <;> subst h <;>
      exact absurd hid (by with_unfolding_all decide)
  have hne : tokenize expr ≠ [] := by
    intro h
    rw [h] at hmem
    cases hmem
  have hstrip := tokenize_ne_nil_strip expr hne
  rcases checkTokens_some_of_bad (tokenize expr) t hmem hop hnum hfield with
    ⟨u, hu1, hu2, hu3, hu4, hu5⟩
  refine ⟨?_, u, hu1, hu3, hu4, hu5, ?_⟩ <;>
  · unfold validate_formula
    rw [if_neg hstrip, if_neg (by omega), if_neg hne, if_neg (by omega), hu2]

/-- C3 witness: `"foo + close"` is rejected naming `foo`. -/
theorem C3_witness :
    (validate_formula "foo + close").1 = false ∧
    ∃ u, u ∈ tokenize "foo + close" ∧ u ∉ ALLOWED_OPERATORS ∧
      is_number u = false ∧ u ∉ ALLOWED_FIELDS ∧
      (validate_formula "foo + close").2 = "不允許的 token: " ++ u :=
  C3_amended "foo + close" "foo" (by with_unfolding_all decide)
    (by with_unfolding_all decide) (by with_unfolding_all decide)
    (by with_unfolding_all decide) (by with_unfolding_all decide)
    (by with_unfolding_all decide)

/-! ### Claim C6 -/

theorem setCol_of_not_mem (df : Panel) (nm : String) (v : Col)
    (h : df.getCol nm = none) : df.setCol nm v = df ++ [(nm, v)] := by
  induction df with
  | nil => rfl
  | cons p rest ih =>
    obtain ⟨m, c⟩ := p
    unfold Panel.getCol at h
    unfold Panel.setCol
    by_cases hm : m = nm
    · rw [if_pos hm] at h
      cases h
    · rw [if_neg hm] at h
      rw [if_neg hm, ih h]
      rfl

theorem getCol_append_left (df : Panel) (x : String × Col) (n : String) (col : Col)
    (h : df.getCol n = some col) : (df ++ [x]).getCol n = some col := by
  induction df with
  | nil => cases h
  | cons p rest ih =>
    obtain ⟨m, c⟩ := p
    rw [List.cons_append]
    simp only [Panel.getCol] at h ⊢
    by_cases hm : m = n
    · rwa [if_pos hm] at h ⊢
    · rw [if_neg hm] at h ⊢
      exact ih h

theorem safe_eval_ok_shape (df : Panel) (nm expr : String) (df2 : Panel)
    (hok : safe_eval_formula df nm expr = .ok df2) :
    ∃ c, pandasEvalCol df expr = .ok c ∧ df2 = df.setCol nm c := by
  simp only [safe_eval_formula] at hok
  split_ifs at hok
  cases h2 : pandasEvalCol df expr with
  | ok c =>
    rw [h2] at hok
    cases hok
    exact ⟨c, rfl, rfl⟩
  | error e =>
    rw [h2] at hok
    cases hok

/-- C6 counterexample: a formula named `ticker_id` — a protected
identifier and an existing column — evaluates successfully and *overwrites*
that column (the `str "A"` ticker cell becomes `num 0`); `safe_eval_formula`
never checks the target name. -/
theorem C6_counterexample :
    Panel.getCol [("ticker_id", [Cell.str "A"]), ("date", [Cell.num 1]),
        ("close", [Cell.num 2])] "ticker_id" = some [Cell.str "A"] ∧
    safe_eval_formula
        [("ticker_id", [Cell.str "A"]), ("date", [Cell.num 1]), ("close", [Cell.num 2])]
        "ticker_id" "0" =
      .ok [("ticker_id", [Cell.num 0]), ("date", [Cell.num 1]), ("close", [Cell.num 2])] := by
  with_unfolding_all decide

/-- C6 amended: *when the formula's name is not an existing column*, a
successful `safe_eval_formula` preserves every existing column exactly and
appends the new one at the end; a name that collides with an existing
column (protected identifiers included) is overwritten instead, as the
counterexample shows. -/
theorem C6_amended (df : Panel) (nm expr : String) (df2 : Panel)
    (hname : df.getCol nm = none)
    (hok : safe_eval_formula df nm expr = .ok df2) :
    (∀ n col, df.getCol n = some col → df2.getCol n = some col) ∧
    df2.columns = df.columns ++ [nm] := by
  rcases safe_eval_ok_shape df nm expr df2 hok with ⟨c, _, rfl⟩
  rw [setCol_of_not_mem df nm c hname]
  constructor
  · intro n col h
    exact getCol_append_left df _ n col h
  · unfold Panel.columns
    rw [List.map_append]
    rfl

/-- C6 witness: applying `close` as a new column `x` preserves the existing
columns and appends `x`. -/
theorem C6_witness :
    (∀ n col,
      Panel.getCol [("ticker_id", [Cell.str "A"]), ("close", [Cell.num 2])] n = some col →
      Panel.getCol [("ticker_id", [Cell.str "A"]), ("close", [Cell.num 2]),
        ("x", [Cell.num 2])] n = some col) ∧
    Panel.columns [("ticker_id", [Cell.str "A"]), ("close", [Cell.num 2]),
        ("x", [Cell.num 2])] =
      Panel.columns [("ticker_id", [Cell.str "A"]), ("close", [Cell.num 2])] ++ ["x"] :=
  C6_amended [("ticker_id", [Cell.str "A"]), ("close", [Cell.num 2])] "x" "close"
    [("ticker_id", [Cell.str "A"]), ("close", [Cell.num 2]), ("x", [Cell.num 2])]
    (by with_unfolding_all decide) (by with_unfolding_all decide)

/-! ### Claim C8 -/

/-- C8: the exposed screen endpoint is total — it always returns a
well-formed response (`matched_count` equals the number of items, `logic`
echoes the request) and whenever the loader fails, the loaded panel is
empty, or any internal evaluation error occurs, the response is exactly
`{matched_count 0, data [], logic}`, never a partial result. -/
theorem C8_screen_total (req : ScreenRequest) (lr : Except String Panel) :
    ((screen_stocks req lr).matched_count = (screen_stocks req lr).data.length ∧
     (screen_stocks req lr).logic = req.logic) ∧
    (∀ e, lr = .error e → screen_stocks req lr = ⟨0, [], req.logic⟩) ∧
    (∀ df, lr = .ok df → df.isEmpty = true → screen_stocks req lr = ⟨0, [], req.logic⟩) ∧
    (∀ e, runScreen req lr = .error e → screen_stocks req lr = ⟨0, [], req.logic⟩) := by
  refine ⟨?_, ?_, ?_, ?_⟩
  · unfold screen_stocks
    cases hrs : runScreen req lr with
    | error e => exact ⟨rfl, rfl⟩
    | ok r =>
      cases lr with
      | error e =>
        rw [show runScreen req (Except.error e) = Except.error e from rfl] at hrs
        cases hrs
      | ok df =>
        rw [show runScreen req (Except.ok df) = runScreenFromPanel req df from rfl] at hrs
        unfold runScreenFromPanel at hrs
        split_ifs at hrs
        · cases hrs
          exact ⟨rfl, rfl⟩
        · cases hsf : screenFilter req df with
          | error e => rw [hsf] at hrs; cases hrs
          | ok fp =>
            rw [hsf] at hrs
            dsimp only at hrs
            cases hmap : (List.range fp.2.nrows).mapM (fun i => formatRow fp.2 i) with
            | error e => rw [hmap] at hrs; cases hrs
            | ok results =>
              rw [hmap] at hrs
              cases hrs
              exact ⟨rfl, rfl⟩
  · intro e he
    subst he
    rfl
  · intro df hdf hempty
    subst hdf
    unfold screen_stocks runScreen runScreenFromPanel
    dsimp only
    rw [if_pos hempty]
  · intro e he
    unfold screen_stocks
    rw [he]

/-- C8 witness: a loader failure surfaces as the empty response. -/
theorem C8_witness :
    screen_stocks ⟨"AND", [⟨"close", ">", "value", TVal.fnum 100⟩], []⟩
      (.error "LoaderError") = ⟨0, [], "AND"⟩ :=
  (C8_screen_total ⟨"AND", [⟨"close", ">", "value", TVal.fnum 100⟩], []⟩
    (.error "LoaderError")).2.1 "LoaderError" rfl

/-! ### Claim C7 -/

theorem zipWith_and_getD (m1 m2 : List Bool) (i : Nat) :
    (List.zipWith and m1 m2).getD i false = (m1.getD i false && m2.getD i false) := by
  induction m1 generalizing m2 i with
  | nil => simp [List.getD]
  | cons a m1 ih =>
    cases m2 with
    | nil => simp [List.getD]
    | cons b m2 =>
      cases i with
      | zero => simp
      | succ i => simpa using ih m2 i

theorem getD_replicate {α : Type} (n i : Nat) (s d : α) (h : i < n) :
    (List.replicate n s).getD i d = s := by
  induction n generalizing i with
  | zero => omega
  | succ n ih =>
    cases i with
    | zero => rfl
    | succ i =>
      simp only [List.replicate, List.getD_cons_succ]
      exact ih i (by omega)

theorem compareCols_ok_length (op : CmpOp) (as bs : Col) (ms : List Bool)
    (h : compareCols op as bs = .ok ms) : ms.length = min as.length bs.length := by
  induction as generalizing bs ms with
  | nil =>
    unfold compareCols at h
    cases h
    simp
  | cons a as ih =>
    cases bs with
    | nil =>
      unfold compareCols at h
      cases h
      simp
    | cons b bs =>
      unfold compareCols at h
      cases hc : cellCmp op a b with
      | error e => rw [hc] at h; cases h
      | ok hb =>
        rw [hc] at h
        cases ht : compareCols op as bs with
        | error e => rw [ht] at h; cases h
        | ok t =>
          rw [ht] at h
          cases h
          have := ih bs t ht
          simp [this]
          omega

theorem compareCols_ok_get (op : CmpOp) (as bs : Col) (ms : List Bool)
    (h : compareCols op as bs = .ok ms) (i : Nat) (hi : i < ms.length) :
    cellCmp op (as.getD i Cell.nan) (bs.getD i Cell.nan) = .ok (ms.getD i false) := by
  induction as generalizing bs ms i with
  | nil =>
    unfold compareCols at h
    cases h
    simp at hi
  | cons a as ih =>
    cases bs with
    | nil =>
      unfold compareCols at h
      cases h
      simp at hi
    | cons b bs =>
      unfold compareCols at h
      cases hc : cellCmp op a b with
      | error e => rw [hc] at h; cases h
      | ok hb =>
        rw [hc] at h
        cases ht : compareCols op as bs with
        | error e => rw [ht] at h; cases h
        | ok t =>
          rw [ht] at h
          cases h
          cases i with
          | zero => simpa using hc
          | succ i =>
            simp only [List.length_cons, Nat.succ_lt_succ_iff] at hi
            simpa using ih bs t ht i hi

theorem cellCmp_lt_nan_left (y : Cell) (b : Bool)
    (h : cellCmp .lt Cell.nan y = .ok b) : b = false := by
  cases y <;> simp [cellCmp] at h <;> simp_all

theorem cellCmp_gt_nan_left (y : Cell) (b : Bool)
    (h : cellCmp .gt Cell.nan y = .ok b) : b = false := by
  cases y <;> simp [cellCmp] at h <;> simp_all

theorem cellCmp_lt_gt_false (x y : Cell) (h1 : cellCmp .lt x y = .ok true)
    (h2 : cellCmp .gt x y = .ok true) : False := by
  cases x <;> cases y <;>
    simp only [cellCmp, numLt, Except.ok.injEq, decide_eq_true_eq] at h1 h2 <;>
    first
      | exact lt_asymm h1 h2
      | simp_all

theorem lookupCell_eq_none (acc : List (Cell × Cell)) (key : Cell)
    (h : ∀ kv ∈ acc, kv.1 ≠ key) : lookupCell acc key = none := by
  induction acc with
  | nil => rfl
  | cons kv acc ih =>
    unfold lookupCell
    rw [if_neg (h kv (by simp))]
    exact ih (fun x hx => h x (List.mem_cons_of_mem _ hx))

theorem shiftAux_first (ks : Col) (vs : Col) (acc : List (Cell × Cell)) (i : Nat)
    (hi : i < ks.length)
    (hfirst : ∀ j, j < i → ks.getD j Cell.nan ≠ ks.getD i Cell.nan)
    (hacc : ∀ kv ∈ acc, kv.1 ≠ ks.getD i Cell.nan) :
    (shiftAux acc ks vs).getD i Cell.nan = Cell.nan := by
  induction ks generalizing vs acc i with
  | nil => simp at hi
  | cons k ks ih =>
    cases vs with
    | nil =>
      unfold shiftAux
      simp [List.getD]
    | cons v vs =>
      unfold shiftAux
      cases i with
      | zero =>
        by_cases hk : k = Cell.nan
        · rw [if_pos hk]
          rfl
        · rw [if_neg hk, lookupCell_eq_none acc k (by simpa using hacc)]
          rfl
      | succ i =>
        simp only [List.length_cons, Nat.succ_lt_succ_iff] at hi
        have hfirst2 : ∀ j, j < i → ks.getD j Cell.nan ≠ ks.getD i Cell.nan := by
          intro j hj
          have h3 := hfirst (j + 1) (by omega)
          simpa using h3
        have hk0 : k ≠ ks.getD i Cell.nan := by
          have h3 := hfirst 0 (by omega)
          simpa using h3
        have hacc0 : ∀ kv ∈ acc, kv.1 ≠ ks.getD i Cell.nan := by
          intro kv hkv
          have h3 := hacc kv hkv
          simpa using h3
        have hacc2 : ∀ kv ∈ ((k, v) :: acc), kv.1 ≠ ks.getD i Cell.nan := by
          intro kv hkv
          rcases List.mem_cons.mp hkv with rfl | hm
          · exact hk0
          · exact hacc0 kv hm
        by_cases hk : k = Cell.nan
        · rw [if_pos hk]
          simpa using ih vs acc i hi hfirst2 hacc0
        · rw [if_neg hk]
          cases hl : lookupCell acc k with
          | some pv => simpa using ih vs ((k, v) :: acc) i hi hfirst2 hacc2
          | none => simpa using ih vs ((k, v) :: acc) i hi hfirst2 hacc2

theorem crossGen_ok_inv (opP opC : CmpOp) (df : Panel) (field : String)
    (target : Target) (tick : Col) (u : List Bool)
    (htick : df.getCol "ticker_id" = some tick)
    (h : crossGen opP opC df field target = .ok u) :
    ∃ fcol, df.getCol field = some fcol ∧
      ((∃ t tcol m1 m2, target = .col t ∧ df.getCol t = some tcol ∧
        compareCols opP (shiftInGroup tick fcol) (shiftInGroup tick tcol) = .ok m1 ∧
        compareCols opC fcol tcol = .ok m2 ∧ u = List.zipWith and m1 m2) ∨
       (∃ s m1 m2, target = .scalar s ∧
        compareScalar opP (shiftInGroup tick fcol) s = .ok m1 ∧
        compareScalar opC fcol s = .ok m2 ∧ u = List.zipWith and m1 m2)) := by
  unfold crossGen at h
  rw [htick] at h
  dsimp only at h
  cases hf : df.getCol field with
  | none => rw [hf] at h; cases h
  | some fcol =>
    rw [hf] at h
    dsimp only at h
    refine ⟨fcol, rfl, ?_⟩
    cases target with
    | col t =>
      left
      dsimp only at h
      cases ht : df.getCol t with
      | none => rw [ht] at h; cases h
      | some tcol =>
        rw [ht] at h
        dsimp only at h
        cases h1 : compareCols opP (shiftInGroup tick fcol) (shiftInGroup tick tcol) with
        | error e => rw [h1] at h; cases h
        | ok m1 =>
          rw [h1] at h
          dsimp only at h
          cases h2 : compareCols opC fcol tcol with
          | error e => rw [h2] at h; cases h
          | ok m2 =>
            rw [h2] at h
            dsimp only at h
            cases h
            exact ⟨t, tcol, m1, m2, rfl, ht, h1, h2, rfl⟩
    | scalar sc =>
      right
      dsimp only at h
      cases h1 : compareScalar opP (shiftInGroup tick fcol) sc with
      | error e => rw [h1] at h; cases h
      | ok m1 =>
        rw [h1] at h
        dsimp only at h
        cases h2 : compareScalar opC fcol sc with
        | error e => rw [h2] at h; cases h
        | ok m2 =>
          rw [h2] at h
          dsimp only at h
          cases h
          exact ⟨sc, m1, m2, rfl, h1, h2, rfl⟩

/-- C7: for every panel, field and target, whenever `cross_up` and
`cross_down` both evaluate, no row is flagged by both (mutual exclusivity),
and at each ticker's first row of the panel — a row with no earlier row
carrying the same `ticker_id` cell — both masks are `false`; the masks are
Boolean throughout (no nulls or NaNs, by construction of the embedding of
`.fillna(False)`). -/
theorem C7_cross_exclusive (df : Panel) (field : String) (target : Target)
    (tick : Col) (u d : List Bool)
    (htick : df.getCol "ticker_id" = some tick)
    (hu : cross_up df field target = .ok u)
    (hd : cross_down df field target = .ok d) :
    (∀ i, ¬(u.getD i false = true ∧ d.getD i false = true)) ∧
    (∀ i, i < tick.length →
      (∀ j, j < i → tick.getD j Cell.nan ≠ tick.getD i Cell.nan) →
      u.getD i false = false ∧ d.getD i false = false) := by
  unfold cross_up at hu
  unfold cross_down at hd
  rcases crossGen_ok_inv .lt .ge df field target tick u htick hu with
    ⟨fcol, hf, hcase⟩
  rcases crossGen_ok_inv .gt .le df field target tick d htick hd with
    ⟨fcol2, hf2, hcase2⟩
  rw [hf] at hf2
  cases hf2
  constructor
  · -- mutual exclusivity
    intro i hcon
    rcases hcase with ⟨t, tcol, m1, m2, htgt, ht, h1, h2, rfl⟩ |
      ⟨sc, m1, m2, htgt, h1, h2, rfl⟩
    · rcases hcase2 with ⟨t2, tcol2, n1, n2, htgt2, ht2, g1, g2, rfl⟩ |
        ⟨sc2, n1, n2, htgt2, g1, g2, rfl⟩
      · -- both field targets
        rw [htgt] at htgt2
        cases htgt2
        rw [ht] at ht2
        cases ht2
        rw [zipWith_and_getD] at hcon
        have hm1 : m1.getD i false = true := by
          rcases hcon with ⟨hc1, _⟩
          cases hq : m1.getD i false
          · rw [hq] at hc1; simp at hc1
          · rfl
        have hn1 : n1.getD i false = true := by
          rcases hcon with ⟨_, hc2⟩
          rw [zipWith_and_getD] at hc2
          cases hq : n1.getD i false
          · rw [hq] at hc2; simp at hc2
          · rfl
        have him : i < m1.length := by
          by_contra hge
          rw [List.getD_eq_default _ _ (by omega)] at hm1
          cases hm1
        have hin : i < n1.length := by
          by_contra hge
          rw [List.getD_eq_default _ _ (by omega)] at hn1
          cases hn1
        have hc1 := compareCols_ok_get _ _ _ _ h1 i him
        have hc2 := compareCols_ok_get _ _ _ _ g1 i hin
        rw [hm1] at hc1
        rw [hn1] at hc2
        exact cellCmp_lt_gt_false _ _ hc1 hc2
      · rw [htgt] at htgt2; cases htgt2
    · rcases hcase2 with ⟨t2, tcol2, n1, n2, htgt2, ht2, g1, g2, rfl⟩ |
        ⟨sc2, n1, n2, htgt2, g1, g2, rfl⟩
      · rw [htgt] at htgt2; cases htgt2
      · -- both scalar targets
        rw [htgt] at htgt2
        cases htgt2
        rw [zipWith_and_getD] at hcon
        have hm1 : m1.getD i false = true := by
          rcases hcon with ⟨hc1, _⟩
          cases hq : m1.getD i false
          · rw [hq] at hc1; simp at hc1
          · rfl
        have hn1 : n1.getD i false = true := by
          rcases hcon with ⟨_, hc2⟩
          rw [zipWith_and_getD] at hc2
          cases hq : n1.getD i false
          · rw [hq] at hc2; simp at hc2
          · rfl
        have him : i < m1.length := by
          by_contra hge
          rw [List.getD_eq_default _ _ (by omega)] at hm1
          cases hm1
        have hin : i < n1.length := by
          by_contra hge
          rw [List.getD_eq_default _ _ (by omega)] at hn1
          cases hn1
        unfold compareScalar at h1 g1
        have hc1 := compareCols_ok_get _ _ _ _ h1 i him
        have hc2 := compareCols_ok_get _ _ _ _ g1 i hin
        rw [hm1] at hc1
        rw [hn1] at hc2
        have hlm := compareCols_ok_length _ _ _ _ h1
        have hrep : (List.replicate (shiftInGroup tick fcol).length sc).getD i Cell.nan = sc := by
          apply getD_replicate
          omega
        have hln := compareCols_ok_length _ _ _ _ g1
        rw [hrep] at hc1 hc2
        exact cellCmp_lt_gt_false _ _ hc1 hc2
  · -- first row of each ticker: both false
    intro i hilt hfirst
    have hshift : (shiftInGroup tick fcol).getD i Cell.nan = Cell.nan :=
      shiftAux_first tick fcol [] i hilt hfirst (by intro kv hkv; cases hkv)
    constructor
    · rcases hcase with ⟨t, tcol, m1, m2, htgt, ht, h1, h2, rfl⟩ |
        ⟨sc, m1, m2, htgt, h1, h2, rfl⟩
      · rw [zipWith_and_getD]
        by_cases him : i < m1.length
        · have hc1 := compareCols_ok_get _ _ _ _ h1 i him
          rw [hshift] at hc1
          rw [cellCmp_lt_nan_left _ _ hc1]
          rfl
        · rw [List.getD_eq_default _ _ (by omega)]
          rfl
      · rw [zipWith_and_getD]
        by_cases him : i < m1.length
        · unfold compareScalar at h1
          have hc1 := compareCols_ok_get _ _ _ _ h1 i him
          rw [hshift] at hc1
          rw [cellCmp_lt_nan_left _ _ hc1]
          rfl
        · rw [List.getD_eq_default _ _ (by omega)]
          rfl
    · rcases hcase2 with ⟨t, tcol, m1, m2, htgt, ht, h1, h2, rfl⟩ |
        ⟨sc, m1, m2, htgt, h1, h2, rfl⟩
      · rw [zipWith_and_getD]
        by_cases him : i < m1.length
        · have hc1 := compareCols_ok_get _ _ _ _ h1 i him
          rw [hshift] at hc1
          rw [cellCmp_gt_nan_left _ _ hc1]
          rfl
        · rw [List.getD_eq_default _ _ (by omega)]
          rfl
      · rw [zipWith_and_getD]
        by_cases him : i < m1.length
        · unfold compareScalar at h1
          have hc1 := compareCols_ok_get _ _ _ _ h1 i him
          rw [hshift] at hc1
          rw [cellCmp_gt_nan_left _ _ hc1]
          rfl
        · rw [List.getD_eq_default _ _ (by omega)]
          rfl

/-- C7 witness: a concrete two-row single-ticker panel against scalar
target `3/2`; `cross_up` flags only the second row, the first row is
`false` under both operators, and no row is flagged by both. -/
theorem C7_witness :
    (∀ i, ¬(([false, true] : List Bool).getD i false = true ∧
            ([false, false] : List Bool).getD i false = true)) ∧
    ([false, true] : List Bool).getD 0 false = false ∧
    ([false, false] : List Bool).getD 0 false = false := by
  have h := C7_cross_exclusive
    [("ticker_id", [Cell.str "A", Cell.str "A"]),
     ("close", [Cell.num 1, Cell.num 2])]
    "close" (Target.scalar (Cell.num (3 / 2)))
    [Cell.str "A", Cell.str "A"] [false, true] [false, false]
    (by with_unfolding_all decide) (by with_unfolding_all decide)
    (by with_unfolding_all decide)
  exact ⟨h.1, h.2 0 (by decide) (fun j hj => absurd hj (Nat.not_lt_zero j))⟩

/-! ### Claim C2 -/

/-- Is the cell a string? -/
def Cell.isStr : Cell → Bool
  | .str _ => true
  | _ => false

/-- A column with no string cells (a numeric pandas column, possibly with
missing values and infinities). -/
def strFree (c : Col) : Prop := ∀ x ∈ c, x.isStr = false

instance (c : Col) : Decidable (strFree c) := by
  unfold strFree; infer_instance

theorem cellCmp_ok_of_not_str (op : CmpOp) (x y : Cell)
    (hx : x.isStr = false) (hy : y.isStr = false) :
    ∃ b, cellCmp op x y = .ok b := by
  cases x <;> cases y <;> simp [Cell.isStr] at hx hy <;> cases op <;> exact ⟨_, rfl⟩

theorem compareCols_ok_of_strFree (op : CmpOp) (as bs : Col)
    (ha : strFree as) (hb : strFree bs) :
    ∃ ms, compareCols op as bs = .ok ms := by
  induction as generalizing bs with
  | nil => exact ⟨[], rfl⟩
  | cons a as ih =>
    cases bs with
    | nil => exact ⟨[], rfl⟩
    | cons b bs =>
      rcases cellCmp_ok_of_not_str op a b (ha a (by simp)) (hb b (by simp)) with ⟨h0, hc⟩
      rcases ih bs (fun x hx => ha x (List.mem_cons_of_mem _ hx))
        (fun x hx => hb x (List.mem_cons_of_mem _ hx)) with ⟨t, ht⟩
      exact ⟨h0 :: t, by unfold compareCols; rw [hc, ht]⟩

theorem lookupCell_mem (acc : List (Cell × Cell)) (key pv : Cell)
    (h : lookupCell acc key = some pv) : ∃ kv ∈ acc, kv.2 = pv := by
  induction acc with
  | nil => cases h
  | cons kv acc ih =>
    unfold lookupCell at h
    split_ifs at h with hk
    · cases h
      exact ⟨kv, by simp, rfl⟩
    · rcases ih h with ⟨kv2, hm, he⟩
      exact ⟨kv2, List.mem_cons_of_mem _ hm, he⟩

theorem shiftAux_strFree (ks vs : Col) (acc : List (Cell × Cell))
    (hv : strFree vs) (hacc : ∀ kv ∈ acc, Cell.isStr kv.2 = false) :
    strFree (shiftAux acc ks vs) := by
  induction ks generalizing vs acc with
  | nil =>
    intro x hx
    unfold shiftAux at hx
    cases hx
  | cons k ks ih =>
    cases vs with
    | nil =>
      intro x hx
      unfold shiftAux at hx
      cases hx
    | cons v vs =>
      have hv2 : strFree vs := fun x hx => hv x (List.mem_cons_of_mem _ hx)
      have hvv : Cell.isStr v = false := hv v (by simp)
      have hacc2 : ∀ kv ∈ ((k, v) :: acc), Cell.isStr kv.2 = false := by
        intro kv hkv
        rcases List.mem_cons.mp hkv with rfl | hm
        · exact hvv
        · exact hacc kv hm
      intro x hx
      unfold shiftAux at hx
      split_ifs at hx with hk
      · rcases List.mem_cons.mp hx with rfl | hm
        · rfl
        · exact ih vs acc hv2 hacc x hm
      · cases hl : lookupCell acc k with
        | some pv =>
          rw [hl] at hx
          rcases List.mem_cons.mp hx with rfl | hm
          · rcases lookupCell_mem acc k x hl with ⟨kv, hkv, rfl⟩
            exact hacc kv hkv
          · exact ih vs ((k, v) :: acc) hv2 hacc2 x hm
        | none =>
          rw [hl] at hx
          rcases List.mem_cons.mp hx with rfl | hm
          · rfl
          · exact ih vs ((k, v) :: acc) hv2 hacc2 x hm

theorem shiftAux_length (ks vs : Col) (acc : List (Cell × Cell)) :
    (shiftAux acc ks vs).length = min ks.length vs.length := by
  induction ks generalizing vs acc with
  | nil => simp [shiftAux]
  | cons k ks ih =>
    cases vs with
    | nil => simp [shiftAux]
    | cons v vs =>
      unfold shiftAux
      split_ifs with hk
      · simp [ih]
        omega
      · cases hl : lookupCell acc k <;> simp [ih] <;> omega

theorem getCol_mem (df : Panel) (n : String) (c : Col)
    (h : df.getCol n = some c) : (n, c) ∈ df := by
  induction df with
  | nil => cases h
  | cons p rest ih =>
    obtain ⟨m, c2⟩ := p
    simp only [Panel.getCol] at h
    split_ifs at h with hm
    · cases h
      subst hm
      simp
    · exact List.mem_cons_of_mem _ (ih h)

theorem getCol_length (df : Panel) (n : String) (c : Col) (hu : df.uniform)
    (h : df.getCol n = some c) : c.length = df.nrows :=
  hu (n, c) (getCol_mem df n c h)

theorem crossGen_ok_of (opP opC : CmpOp) (df : Panel) (field : String)
    (target : Target) (tick fcol : Col)
    (hu : df.uniform)
    (htick : df.getCol "ticker_id" = some tick)
    (hf : df.getCol field = some fcol) (hsf : strFree fcol)
    (htc : ∀ t, target = Target.col t → ∃ tcol, df.getCol t = some tcol ∧ strFree tcol)
    (hts : ∀ s, target = Target.scalar s → Cell.isStr s = false) :
    ∃ mask, crossGen opP opC df field target = .ok mask ∧ mask.length = df.nrows := by
  have hlt := getCol_length df "ticker_id" tick hu htick
  have hlf := getCol_length df field fcol hu hf
  have hshiftF : strFree (shiftInGroup tick fcol) :=
    shiftAux_strFree tick fcol [] hsf (by intro kv hkv; cases hkv)
  have hshiftFl : (shiftInGroup tick fcol).length = df.nrows := by
    unfold shiftInGroup
    rw [shiftAux_length]
    omega
  unfold crossGen
  rw [htick, hf]
  dsimp only
  cases target with
  | col t =>
    rcases htc t rfl with ⟨tcol, htcol, hst⟩
    have hltc := getCol_length df t tcol hu htcol
    have hshiftT : strFree (shiftInGroup tick tcol) :=
      shiftAux_strFree tick tcol [] hst (by intro kv hkv; cases hkv)
    have hshiftTl : (shiftInGroup tick tcol).length = df.nrows := by
      unfold shiftInGroup
      rw [shiftAux_length]
      omega
    dsimp only
    rw [htcol]
    dsimp only
    rcases compareCols_ok_of_strFree opP _ _ hshiftF hshiftT with ⟨m1, h1⟩
    rcases compareCols_ok_of_strFree opC fcol tcol hsf hst with ⟨m2, h2⟩
    rw [h1, h2]
    refine ⟨_, rfl, ?_⟩
    have l1 := compareCols_ok_length _ _ _ _ h1
    have l2 := compareCols_ok_length _ _ _ _ h2
    simp only [List.length_zipWith]
    omega
  | scalar s =>
    have hss := hts s rfl
    have hrep : strFree (List.replicate (shiftInGroup tick fcol).length s) := by
      intro x hx
      rw [List.eq_of_mem_replicate hx]
      exact hss
    have hrep2 : strFree (List.replicate fcol.length s) := by
      intro x hx
      rw [List.eq_of_mem_replicate hx]
      exact hss
    dsimp only
    rcases compareCols_ok_of_strFree opP (shiftInGroup tick fcol) _ hshiftF hrep with ⟨m1, h1⟩
    rcases compareCols_ok_of_strFree opC fcol _ hsf hrep2 with ⟨m2, h2⟩
    unfold compareScalar
    rw [h1, h2]
    refine ⟨_, rfl, ?_⟩
    have l1 := compareCols_ok_length _ _ _ _ h1
    have l2 := compareCols_ok_length _ _ _ _ h2
    simp only [List.length_zipWith, List.length_replicate] at l1 l2 ⊢
    omega

/-- C2 counterexample: a `CROSS_UP` rule with `target_type = "field"` whose
target column is absent.  The field exists, the operator is supported —
but instead of the fail-open all-`true` mask the code raises `KeyError`
(`operators.cross_up` looks the target column up without any existence
check). -/
theorem C2_counterexample :
    Panel.getCol [("ticker_id", [Cell.str "A"]), ("close", [Cell.num 1])] "close" =
      some [Cell.num 1] ∧
    Panel.getCol [("ticker_id", [Cell.str "A"]), ("close", [Cell.num 1])] "ma99" = none ∧
    apply_rule [("ticker_id", [Cell.str "A"]), ("close", [Cell.num 1])]
      ⟨"close", "CROSS_UP", "field", .fstr "ma99"⟩ = .error "KeyError: ma99" := by
  with_unfolding_all decide

/-- C2 amended: `apply_rule` returns a Boolean mask (hence with no null
elements) exactly as long as the panel, and all-`true` in the fail-open
cases — absent field, unsupported operator, absent comparison target —
*provided* the referenced columns are numeric (string-free), a
`target_type` other than `"field"` carries a numeric target value, and,
for `CROSS_UP`/`CROSS_DOWN` with a field target, the target column exists;
when a cross operator's field target is absent, `apply_rule` raises
`KeyError` instead of failing open (see the counterexample). -/
theorem C2_amended_applyRule (df : Panel) (rule : Rule)
    (hu : df.uniform)
    (htick : (rule.operator = "CROSS_UP" ∨ rule.operator = "CROSS_DOWN") →
      ∃ tick, df.getCol "ticker_id" = some tick)
    (hval : ¬rule.target_type = "field" → ∃ q, rule.target_value = TVal.fnum q)
    (htgt : (rule.operator = "CROSS_UP" ∨ rule.operator = "CROSS_DOWN") →
      rule.target_type = "field" → (∃ c, df.getCol rule.field = some c) →
      ∃ tcol, df.getCol (pyStrTV rule.target_value) = some tcol)
    (hstrF : ∀ c, df.getCol rule.field = some c → strFree c)
    (hstrT : ∀ c, df.getCol (pyStrTV rule.target_value) = some c → strFree c) :
    ∃ mask, apply_rule df rule = .ok mask ∧ mask.length = df.nrows ∧
      ((df.getCol rule.field = none ∨
        (OPERATOR_MAP rule.operator = none ∧
          ¬rule.operator = "CROSS_UP" ∧ ¬rule.operator = "CROSS_DOWN") ∨
        (rule.target_type = "field" ∧
          df.getCol (pyStrTV rule.target_value) = none)) →
        mask = List.replicate df.nrows true) := by
  unfold apply_rule
  cases hf : df.getCol rule.field with
  | none =>
    exact ⟨_, rfl, by simp, fun _ => rfl⟩
  | some seriesA =>
    have hsA := hstrF seriesA hf
    dsimp only
    by_cases hcross : rule.operator = "CROSS_UP" ∨ rule.operator = "CROSS_DOWN"
    · have hcbe : (decide (rule.operator = "CROSS_UP") ||
          decide (rule.operator = "CROSS_DOWN")) = true := by simpa using hcross
      rw [if_pos hcbe]
      rcases htick hcross with ⟨tick, htick2⟩
      by_cases htt : rule.target_type = "field"
      · -- cross operator, field target
        rw [if_pos htt]
        rcases htgt hcross htt ⟨seriesA, hf⟩ with ⟨tcol, htcol⟩
        have hstc := hstrT tcol htcol
        have hco : ∀ t2, Target.col (pyStrTV rule.target_value) = Target.col t2 →
            ∃ tc2, df.getCol t2 = some tc2 ∧ strFree tc2 := by
          intro t2 he
          cases he
          exact ⟨tcol, htcol, hstc⟩
        have hsc : ∀ s2, Target.col (pyStrTV rule.target_value) = Target.scalar s2 →
            Cell.isStr s2 = false := by
          intro s2 he
          cases he
        have main : ∀ opP opC : CmpOp,
            ∃ mask, crossGen opP opC df rule.field
                (Target.col (pyStrTV rule.target_value)) = .ok mask ∧
              mask.length = df.nrows ∧
              (((some seriesA : Option Col) = none ∨
                (OPERATOR_MAP rule.operator = none ∧
                  ¬rule.operator = "CROSS_UP" ∧ ¬rule.operator = "CROSS_DOWN") ∨
                (rule.target_type = "field" ∧
                  df.getCol (pyStrTV rule.target_value) = none)) →
                mask = List.replicate df.nrows true) := by
          intro opP opC
          rcases crossGen_ok_of opP opC df rule.field _ tick seriesA hu htick2 hf hsA
            hco hsc with ⟨mask, hm, hl⟩
          refine ⟨mask, hm, hl, ?_⟩
          intro hcases
          rcases hcases with h1 | ⟨_, h2, h3⟩ | ⟨_, h4⟩
          · cases h1
          · rcases hcross with hc | hc
            · exact absurd hc h2
            · exact absurd hc h3
          · rw [htcol] at h4; cases h4
        by_cases hop : rule.operator = "CROSS_UP"
        · rw [if_pos hop]
          unfold cross_up
          exact main .lt .ge
        · rw [if_neg hop]
          unfold cross_down
          exact main .gt .le
      · -- cross operator, scalar target
        rw [if_neg htt]
        rcases hval htt with ⟨q, hq⟩
        rw [hq]
        dsimp only [pyFloatTV]
        have hco : ∀ t2, Target.scalar (Cell.num q) = Target.col t2 →
            ∃ tc2, df.getCol t2 = some tc2 ∧ strFree tc2 := by
          intro t2 he
          cases he
        have hsc : ∀ s2, Target.scalar (Cell.num q) = Target.scalar s2 →
            Cell.isStr s2 = false := by
          intro s2 he
          cases he
          rfl
        have main : ∀ opP opC : CmpOp,
            ∃ mask, crossGen opP opC df rule.field
                (Target.scalar (Cell.num q)) = .ok mask ∧
              mask.length = df.nrows ∧
              (((some seriesA : Option Col) = none ∨
                (OPERATOR_MAP rule.operator = none ∧
                  ¬rule.operator = "CROSS_UP" ∧ ¬rule.operator = "CROSS_DOWN") ∨
                (rule.target_type = "field" ∧
                  df.getCol (pyStrTV (TVal.fnum q)) = none)) →
                mask = List.replicate df.nrows true) := by
          intro opP opC
          rcases crossGen_ok_of opP opC df rule.field _ tick seriesA hu htick2 hf hsA
            hco hsc with ⟨mask, hm, hl⟩
          refine ⟨mask, hm, hl, ?_⟩
          intro hcases
          rcases hcases with h1 | ⟨_, h2, h3⟩ | ⟨h4, _⟩
          · cases h1
          · rcases hcross with hc | hc
            · exact absurd hc h2
            · exact absurd hc h3
          · exact absurd h4 htt
        by_cases hop : rule.operator = "CROSS_UP"
        · rw [if_pos hop]
          unfold cross_up
          exact main .lt .ge
        · rw [if_neg hop]
          unfold cross_down
          exact main .gt .le
    · -- comparison operator
      have hcbe : (decide (rule.operator = "CROSS_UP") ||
          decide (rule.operator = "CROSS_DOWN")) = false := by
        simpa [not_or] using hcross
      rw [hcbe, if_neg Bool.false_ne_true]
      cases hmap : OPERATOR_MAP rule.operator with
      | none =>
        exact ⟨_, rfl, by simp, fun _ => rfl⟩
      | some op =>
        dsimp only
        by_cases htt : rule.target_type = "field"
        · rw [if_pos htt]
          cases hq : df.getCol (pyStrTV rule.target_value) with
          | none =>
            exact ⟨_, rfl, by simp, fun _ => rfl⟩
          | some tcol =>
            dsimp only
            have hstc := hstrT tcol hq
            rcases compareCols_ok_of_strFree op seriesA tcol hsA hstc with ⟨ms, hms⟩
            rw [hms]
            refine ⟨ms, rfl, ?_, ?_⟩
            · have hl := compareCols_ok_length _ _ _ _ hms
              have l1 := getCol_length df rule.field seriesA hu hf
              have l2 := getCol_length df (pyStrTV rule.target_value) tcol hu hq
              omega
            · intro hcases
              rcases hcases with h1 | ⟨h2, _⟩ | ⟨_, h3⟩
              · cases h1
              · cases h2
              · cases h3
        · rw [if_neg htt]
          rcases hval htt with ⟨q, hq⟩
          rw [hq]
          dsimp only [pyFloatTV]
          have hrep : strFree (List.replicate seriesA.length (Cell.num q)) := by
            intro x hx
            rw [List.eq_of_mem_replicate hx]
            rfl
          rcases compareCols_ok_of_strFree op seriesA _ hsA hrep with ⟨ms, hms⟩
          unfold compareScalar
          rw [hms]
          refine ⟨ms, rfl, ?_, ?_⟩
          · have hl := compareCols_ok_length _ _ _ _ hms
            have l1 := getCol_length df rule.field seriesA hu hf
            simp only [List.length_replicate] at hl
            omega
          · intro hcases
            rcases hcases with h1 | ⟨h2, _⟩ | ⟨h3, _⟩
            · cases h1
            · cases h2
            · exact absurd h3 htt

/-- C2 witness: a plain comparison rule on a concrete numeric panel
produces an aligned Boolean mask. -/
theorem C2_witness :
    ∃ mask,
      apply_rule [("ticker_id", [Cell.str "A"]), ("close", [Cell.num 5])]
        ⟨"close", ">", "value", .fnum 3⟩ = .ok mask ∧
      mask.length =
        Panel.nrows [("ticker_id", [Cell.str "A"]), ("close", [Cell.num 5])] ∧
      ((Panel.getCol [("ticker_id", [Cell.str "A"]), ("close", [Cell.num 5])] "close" =
          none ∨
        (OPERATOR_MAP ">" = none ∧ ¬(">" : String) = "CROSS_UP" ∧
          ¬(">" : String) = "CROSS_DOWN") ∨
        (("value" : String) = "field" ∧
          Panel.getCol [("ticker_id", [Cell.str "A"]), ("close", [Cell.num 5])]
            (pyStrTV (.fnum 3)) = none)) →
        mask = List.replicate
          (Panel.nrows [("ticker_id", [Cell.str "A"]), ("close", [Cell.num 5])]) true) :=
  C2_amended_applyRule [("ticker_id", [Cell.str "A"]), ("close", [Cell.num 5])]
    ⟨"close", ">", "value", .fnum 3⟩
    (by with_unfolding_all decide)
    (fun h => absurd h (by with_unfolding_all decide))
    (fun _ => ⟨3, rfl⟩)
    (fun h => absurd h (by with_unfolding_all decide))
    (by
      intro c hc
      have h2 : some [Cell.num 5] = some c := by
        rw [← hc]
        with_unfolding_all decide
      cases h2
      with_unfolding_all decide)
    (by
      intro c hc
      have h0 : Panel.getCol [("ticker_id", [Cell.str "A"]), ("close", [Cell.num 5])]
          (pyStrTV (.fnum 3)) = none := by
        with_unfolding_all decide
      rw [h0] at hc
      cases hc)

/-! ### Claim C1 -/

/-- A token of the shape emitted for single operator characters. -/
def opShaped (t : String) : Prop := ∃ c, t = String.mk [c] ∧ isOpChar c = true

/-- A token whose first character is an identifier or digit character. -/
def headShaped (t : String) : Prop :=
  ∃ c cs, t.data = c :: cs ∧ (isIdentStart c = true ∨ c.isDigit = true)

theorem scanSM_shape (cs : List Char) :
    ∀ (mode : SMode) (cur : List Char),
    (mode ≠ .idle →
      ∃ c cs0, cur.reverse = c :: cs0 ∧ (isIdentStart c = true ∨ c.isDigit = true)) →
    ∀ t ∈ scanSM mode cur cs, opShaped t ∨ headShaped t := by
  induction cs with
  | nil =>
    intro mode cur hinv t ht
    cases mode with
    | idle => cases ht
    | ident =>
      obtain ⟨c0, cs0, hrev, hc0⟩ := hinv (by intro h; cases h)
      rw [List.mem_singleton.mp ht]
      exact Or.inr ⟨c0, cs0, hrev, hc0⟩
    | intg =>
      obtain ⟨c0, cs0, hrev, hc0⟩ := hinv (by intro h; cases h)
      rw [List.mem_singleton.mp ht]
      exact Or.inr ⟨c0, cs0, hrev, hc0⟩
    | frac =>
      obtain ⟨c0, cs0, hrev, hc0⟩ := hinv (by intro h; cases h)
      rw [List.mem_singleton.mp ht]
      exact Or.inr ⟨c0, cs0, hrev, hc0⟩
  | cons c cs ih =>
    intro mode cur hinv t ht
    cases mode with
    | idle =>
      unfold scanSM at ht
      split_ifs at ht with h1 h2 h3
      · exact ih .ident [c] (fun _ => ⟨c, [], by simp, Or.inl h1⟩) t ht
      · exact ih .intg [c] (fun _ => ⟨c, [], by simp, Or.inr h2⟩) t ht
      · rcases List.mem_cons.mp ht with rfl | hm
        · exact Or.inl ⟨c, rfl, h3⟩
        · exact ih .idle [] (fun hne => absurd rfl hne) t hm
      · exact ih .idle [] (fun hne => absurd rfl hne) t ht
    | ident =>
      obtain ⟨c0, cs0, hrev, hc0⟩ := hinv (by intro h; cases h)
      unfold scanSM at ht
      split_ifs at ht with h1 h2
      · exact ih .ident (c :: cur)
          (fun _ => ⟨c0, cs0 ++ [c], by rw [List.reverse_cons, hrev]; rfl, hc0⟩) t ht
      · rcases List.mem_cons.mp ht with rfl | hm
        · exact Or.inr ⟨c0, cs0, hrev, hc0⟩
        · rcases List.mem_cons.mp hm with rfl | hm2
          · exact Or.inl ⟨c, rfl, h2⟩
          · exact ih .idle [] (fun hne => absurd rfl hne) t hm2
      · rcases List.mem_cons.mp ht with rfl | hm
        · exact Or.inr ⟨c0, cs0, hrev, hc0⟩
        · exact ih .idle [] (fun hne => absurd rfl hne) t hm
    | intg =>
      obtain ⟨c0, cs0, hrev, hc0⟩ := hinv (by intro h; cases h)
      unfold scanSM at ht
      split_ifs at ht with h1 h2 h3 h4
      · exact ih .intg (c :: cur)
          (fun _ => ⟨c0, cs0 ++ [c], by rw [List.reverse_cons, hrev]; rfl, hc0⟩) t ht
      · exact ih .frac (c :: cur)
          (fun _ => ⟨c0, cs0 ++ [c], by rw [List.reverse_cons, hrev]; rfl, hc0⟩) t ht
      · rcases List.mem_cons.mp ht with rfl | hm
        · exact Or.inr ⟨c0, cs0, hrev, hc0⟩
        · exact ih .ident [c] (fun _ => ⟨c, [], by simp, Or.inl h3⟩) t hm
      · rcases List.mem_cons.mp ht with rfl | hm
        · exact Or.inr ⟨c0, cs0, hrev, hc0⟩
        · rcases List.mem_cons.mp hm with rfl | hm2
          · exact Or.inl ⟨c, rfl, h4⟩
          · exact ih .idle [] (fun hne => absurd rfl hne) t hm2
      · rcases List.mem_cons.mp ht with rfl | hm
        · exact Or.inr ⟨c0, cs0, hrev, hc0⟩
        · exact ih .idle [] (fun hne => absurd rfl hne) t hm
    | frac =>
      obtain ⟨c0, cs0, hrev, hc0⟩ := hinv (by intro h; cases h)
      unfold scanSM at ht
      split_ifs at ht with h1 h2 h3
      · exact ih .frac (c :: cur)
          (fun _ => ⟨c0, cs0 ++ [c], by rw [List.reverse_cons, hrev]; rfl, hc0⟩) t ht
      · rcases List.mem_cons.mp ht with rfl | hm
        · exact Or.inr ⟨c0, cs0, hrev, hc0⟩
        · exact ih .ident [c] (fun _ => ⟨c, [], by simp, Or.inl h2⟩) t hm
      · rcases List.mem_cons.mp ht with rfl | hm
        · exact Or.inr ⟨c0, cs0, hrev, hc0⟩
        · rcases List.mem_cons.mp hm with rfl | hm2
          · exact Or.inl ⟨c, rfl, h3⟩
          · exact ih .idle [] (fun hne => absurd rfl hne) t hm2
      · rcases List.mem_cons.mp ht with rfl | hm
        · exact Or.inr ⟨c0, cs0, hrev, hc0⟩
        · exact ih .idle [] (fun hne => absurd rfl hne) t hm

/-- No token produced by `tokenize` is one of the multi-character operator
tokens of the engine's grammar (`**`, `//`), nor `%`: the scanner emits
operators as single characters from `+ - * / ( )` only. -/
def noExtToks (ts : List String) : Prop :=
  ∀ t ∈ ts, t ≠ "**" ∧ t ≠ "//" ∧ t ≠ "%"

theorem tokenize_noExt (s : String) : noExtToks (tokenize s) := by
  intro t ht
  have hshape := scanSM_shape s.data .idle [] (fun h => absurd rfl h) t ht
  have hd2 : ("**" : String).data = ['*', '*'] := by with_unfolding_all decide
  have hd3 : ("//" : String).data = ['/', '/'] := by with_unfolding_all decide
  have hd4 : ("%" : String).data = ['%'] := by with_unfolding_all decide
  rcases hshape with ⟨c, rfl, hc⟩ | ⟨c, cs, hdata, hc⟩
  · refine ⟨?_, ?_, ?_⟩
    · intro he
      have h2 := congrArg String.data he
      rw [hd2] at h2
      simp at h2
    · intro he
      have h2 := congrArg String.data he
      rw [hd3] at h2
      simp at h2
    · intro he
      have h2 := congrArg String.data he
      rw [hd4] at h2
      simp only [List.cons.injEq, and_true] at h2
      rw [h2] at hc
      revert hc
      with_unfolding_all decide
  · refine ⟨?_, ?_, ?_⟩
    · intro he
      rw [he, hd2] at hdata
      simp only [List.cons.injEq] at hdata
      rw [← hdata.1] at hc
      revert hc
      with_unfolding_all decide
    · intro he
      rw [he, hd3] at hdata
      simp only [List.cons.injEq] at hdata
      rw [← hdata.1] at hc
      revert hc
      with_unfolding_all decide
    · intro he
      rw [he, hd4] at hdata
      simp only [List.cons.injEq] at hdata
      rw [← hdata.1] at hc
      revert hc
      with_unfolding_all decide

theorem noExt_tail {t : String} {ts : List String} (h : noExtToks (t :: ts)) :
    noExtToks ts := fun x hx => h x (List.mem_cons_of_mem _ hx)

theorem pAtom_some_head {ext : Bool} {f : Nat} {t : String} {ts2 : List String}
    {x : Ast × List String} (h : pAtom ext f (t :: ts2) = some x) :
    t = "(" ∨ isNumTok t = true ∨ isIdentTok t = true := by
  cases f with
  | zero => cases h
  | succ f =>
    simp only [pAtom] at h
    split_ifs at h with h1 h2 h3
    · exact Or.inl h1
    · exact Or.inr (Or.inl h2)
    · exact Or.inr (Or.inr h3)

theorem pPower_some_head {ext : Bool} {f : Nat} {t : String} {ts2 : List String}
    {x : Ast × List String} (h : pPower ext f (t :: ts2) = some x) :
    t = "(" ∨ isNumTok t = true ∨ isIdentTok t = true := by
  cases f with
  | zero => cases h
  | succ f =>
    simp only [pPower] at h
    cases ha : pAtom ext f (t :: ts2) with
    | none => rw [ha] at h; cases h
    | some ar => exact pAtom_some_head ha

theorem parser_flag_mono (f : Nat) :
    (∀ ts a r, noExtToks ts → pExpr false f ts = some (a, r) →
      pExpr true f ts = some (a, r) ∧ noExtToks r) ∧
    (∀ a0 ts a r, noExtToks ts → pExprLoop false f a0 ts = some (a, r) →
      pExprLoop true f a0 ts = some (a, r) ∧ noExtToks r) ∧
    (∀ ts a r, noExtToks ts → pTerm false f ts = some (a, r) →
      pTerm true f ts = some (a, r) ∧ noExtToks r) ∧
    (∀ a0 ts a r, noExtToks ts → pTermLoop false f a0 ts = some (a, r) →
      pTermLoop true f a0 ts = some (a, r) ∧ noExtToks r) ∧
    (∀ ts a r, noExtToks ts → pFactor false f ts = some (a, r) →
      pFactor true f ts = some (a, r) ∧ noExtToks r) ∧
    (∀ ts a r, noExtToks ts → pPower false f ts = some (a, r) →
      pPower true f ts = some (a, r) ∧ noExtToks r) ∧
    (∀ ts a r, noExtToks ts → pAtom false f ts = some (a, r) →
      pAtom true f ts = some (a, r) ∧ noExtToks r) := by
  induction f with
  | zero =>
    exact ⟨fun ts a r hn h => by simp [pExpr] at h,
      fun a0 ts a r hn h => by simp [pExprLoop] at h,
      fun ts a r hn h => by simp [pTerm] at h,
      fun a0 ts a r hn h => by simp [pTermLoop] at h,
      fun ts a r hn h => by simp [pFactor] at h,
      fun ts a r hn h => by simp [pPower] at h,
      fun ts a r hn h => by simp [pAtom] at h⟩
  | succ f ih =>
    obtain ⟨ihE, ihEL, ihT, ihTL, ihF, ihP, ihA⟩ := ih
    refine ⟨?_, ?_, ?_, ?_, ?_, ?_, ?_⟩
    · -- pExpr
      intro ts a r hn h
      simp only [pExpr] at h ⊢
      cases ht : pTerm false f ts with
      | none => rw [ht] at h; cases h
      | some ar =>
        obtain ⟨a1, r1⟩ := ar
        rw [ht] at h
        dsimp only at h
        obtain ⟨ht2, hn1⟩ := ihT ts a1 r1 hn ht
        rw [ht2]
        dsimp only
        exact ihEL a1 r1 a r hn1 h
    · -- pExprLoop
      intro a0 ts a r hn h
      cases ts with
      | nil =>
        simp only [pExprLoop] at h ⊢
        cases h
        exact ⟨rfl, hn⟩
      | cons t ts2 =>
        simp only [pExprLoop] at h ⊢
        split_ifs at h ⊢ with hpm
        · cases ht : pTerm false f ts2 with
          | none => rw [ht] at h; cases h
          | some br =>
            obtain ⟨b, r1⟩ := br
            rw [ht] at h
            dsimp only at h
            obtain ⟨ht2, hn1⟩ := ihT ts2 b r1 (noExt_tail hn) ht
            rw [ht2]
            dsimp only
            exact ihEL (mkBin t a0 b) r1 a r hn1 h
        · cases h
          exact ⟨rfl, hn⟩
    · -- pTerm
      intro ts a r hn h
      simp only [pTerm] at h ⊢
      cases ht : pFactor false f ts with
      | none => rw [ht] at h; cases h
      | some ar =>
        obtain ⟨a1, r1⟩ := ar
        rw [ht] at h
        dsimp only at h
        obtain ⟨ht2, hn1⟩ := ihF ts a1 r1 hn ht
        rw [ht2]
        dsimp only
        exact ihTL a1 r1 a r hn1 h
    · -- pTermLoop
      intro a0 ts a r hn h
      cases ts with
      | nil =>
        simp only [pTermLoop] at h ⊢
        cases h
        exact ⟨rfl, hn⟩
      | cons t ts2 =>
        simp only [pTermLoop] at h ⊢
        by_cases hmem : t ∈ mulOps false
        · rw [if_pos hmem] at h
          have hmem2 : t ∈ mulOps true := by
            simp only [mulOps] at hmem ⊢
            simp only [if_true] at *
            rcases List.mem_cons.mp hmem with rfl | hmem
            · simp
            · simp at hmem
              rw [hmem]
              simp
          rw [if_pos hmem2]
          cases ht : pFactor false f ts2 with
          | none => rw [ht] at h; cases h
          | some br =>
            obtain ⟨b, r1⟩ := br
            rw [ht] at h
            dsimp only at h
            obtain ⟨ht2, hn1⟩ := ihF ts2 b r1 (noExt_tail hn) ht
            rw [ht2]
            dsimp only
            exact ihTL (mkBin t a0 b) r1 a r hn1 h
        · rw [if_neg hmem] at h
          have hmem2 : t ∉ mulOps true := by
            have hx := hn t (by simp)
            simp only [mulOps, if_true] at hmem ⊢
            intro hc
            rcases List.mem_cons.mp hc with rfl | hc
            · exact hmem (by simp [mulOps])
            rcases List.mem_cons.mp hc with rfl | hc
            · exact hmem (by simp [mulOps])
            rcases List.mem_cons.mp hc with rfl | hc
            · exact hx.2.1 rfl
            rcases List.mem_cons.mp hc with rfl | hc
            · exact hx.2.2 rfl
            · cases hc
          rw [if_neg hmem2]
          cases h
          exact ⟨rfl, hn⟩
    · -- pFactor
      intro ts a r hn h
      cases ts with
      | nil => simp [pFactor] at h
      | cons t ts2 =>
        simp only [pFactor, Bool.false_and, Bool.true_and] at h ⊢
        rw [if_neg (by simp), if_neg (by simp)] at h
        have hhead := pPower_some_head h
        have hne1 : ¬(t = "-") := by
          rcases hhead with h1 | h1 | h1
          · rw [h1]; with_unfolding_all decide
          · intro he
            rw [he] at h1
            revert h1
            with_unfolding_all decide
          · intro he
            rw [he] at h1
            revert h1
            with_unfolding_all decide
        have hne2 : ¬(t = "+") := by
          rcases hhead with h1 | h1 | h1
          · rw [h1]; with_unfolding_all decide
          · intro he
            rw [he] at h1
            revert h1
            with_unfolding_all decide
          · intro he
            rw [he] at h1
            revert h1
            with_unfolding_all decide
        rw [if_neg (by simpa using hne1), if_neg (by simpa using hne2)]
        exact ihP (t :: ts2) a r hn h
    · -- pPower
      intro ts a r hn h
      simp only [pPower] at h ⊢
      cases ha : pAtom false f ts with
      | none => rw [ha] at h; cases h
      | some ar =>
        obtain ⟨a1, r1⟩ := ar
        rw [ha] at h
        dsimp only at h
        obtain ⟨ha2, hn1⟩ := ihA ts a1 r1 hn ha
        rw [ha2]
        dsimp only
        cases r1 with
        | nil =>
          cases h
          exact ⟨rfl, hn1⟩
        | cons t2 r2 =>
          simp only [Bool.false_and, Bool.true_and] at h ⊢
          rw [if_neg (by simp)] at h
          have ht2 : ¬(t2 = "**") := (hn1 t2 (by simp)).1
          rw [if_neg (by simpa using ht2)]
          cases h
          exact ⟨rfl, hn1⟩
    · -- pAtom
      intro ts a r hn h
      cases ts with
      | nil => simp [pAtom] at h
      | cons t ts2 =>
        simp only [pAtom] at h ⊢
        split_ifs at h ⊢ with h1 h2 h3
        · cases he : pExpr false f ts2 with
          | none => rw [he] at h; cases h
          | some er =>
            obtain ⟨a1, r1⟩ := er
            rw [he] at h
            dsimp only at h
            obtain ⟨he2, hn1⟩ := ihE ts2 a1 r1 (noExt_tail hn) he
            rw [he2]
            dsimp only
            cases r1 with
            | nil => cases h
            | cons u r2 =>
              dsimp only at h ⊢
              split_ifs at h ⊢ with hu
              cases h
              exact ⟨rfl, noExt_tail hn1⟩
        · cases hp : pyFloat t with
          | none => rw [hp] at h; cases h
          | some c =>
            rw [hp] at h
            cases h
            exact ⟨rfl, noExt_tail hn⟩
        · cases h
          exact ⟨rfl, noExt_tail hn⟩

/-- Full-parse agreement: a token list accepted by the specification's
`+ - * / ( )` grammar (and containing none of the engine-only operator
tokens, as `tokenize` output never does) is parsed by the engine's grammar
to the *same* syntax tree. -/
theorem specParse_pyParse (ts : List String) (ast : Ast)
    (hne : noExtToks ts) (h : specGrammarParse ts = some ast) :
    pParseTop true ts = some ast := by
  unfold specGrammarParse at h
  unfold pParseTop at h ⊢
  cases he : pExpr false (parseFuel ts) ts with
  | none => rw [he] at h; cases h
  | some ar =>
    obtain ⟨a, r⟩ := ar
    rw [he] at h
    cases r with
    | nil =>
      dsimp only at h
      cases h
      obtain ⟨he2, _⟩ := (parser_flag_mono (parseFuel ts)).1 ts ast [] hne he
      rw [he2]
    | cons u r2 =>
      dsimp only at h
      cases h

/-- C1 counterexample: `"close ** 2"` passes `validate_formula` (its
tokens are `close`, `*`, `*`, `2`, all whitelisted), has **no parse** in
the specified `+ - * / ( )` grammar, and yet `safe_eval_formula` succeeds
— delegating to the host table-library `eval`, whose richer grammar reads
`**` as exponentiation: the new column is `close ** 2 = 16`, an
extra-grammatical result. -/
theorem C1_counterexample :
    (validate_formula "close ** 2").1 = true ∧
    specGrammarParse (tokenize "close ** 2") = none ∧
    safe_eval_formula [("ticker_id", [Cell.str "A"]), ("close", [Cell.num 4])]
        "x" "close ** 2" =
      .ok [("ticker_id", [Cell.str "A"]), ("close", [Cell.num 4]),
           ("x", [Cell.num 16])] := by
  with_unfolding_all decide

/-- C1 amended: for every panel and validated expression that *does* parse
in the `+ - * / ( )` grammar (and whose characters the engine tokenizes
identically to `tokenize` — no silently-skipped foreign characters),
evaluation computes, independently for each row, exactly the value of that
parse under standard arithmetic semantics (`* /` before `+ -`, parentheses
respected, IEEE-style division) over the referenced columns, and writes it
as column `name`.  However, evaluation *is* the host library's `eval`:
validated strings outside the grammar (e.g. containing `**`) evaluate
under the library's larger grammar instead of failing — see the
counterexample. -/
theorem C1_amended (df : Panel) (nm expr : String) (ast : Ast) (c : Col)
    (htok : pyTokenize expr = .ok (tokenize expr))
    (hparse : specGrammarParse (tokenize expr) = some ast)
    (hval : (validate_formula expr).1 = true)
    (heval : (List.range df.nrows).mapM (fun i => evalAst df i ast) = .ok c) :
    safe_eval_formula df nm expr = .ok (df.setCol nm c) := by
  have hpp : pParseTop true (tokenize expr) = some ast :=
    specParse_pyParse _ _ (tokenize_noExt expr) hparse
  unfold safe_eval_formula
  simp only [hval, Bool.not_true, Bool.false_eq_true, if_false]
  unfold pandasEvalCol
  rw [htok]
  dsimp only
  rw [hpp]
  dsimp only
  rw [heval]

/-- C1 witness: `"close + 2"` on a one-row panel evaluates per row to the
spec-grammar value `6` and is appended as the new column. -/
theorem C1_witness :
    safe_eval_formula [("close", [Cell.num 4])] "avg" "close + 2" =
      .ok (Panel.setCol [("close", [Cell.num 4])] "avg" [Cell.num 6]) :=
  C1_amended [("close", [Cell.num 4])] "avg" "close + 2"
    (Ast.add (Ast.col "close") (Ast.lit (Cell.num 2))) [Cell.num 6]
    (by with_unfolding_all decide) (by with_unfolding_all decide)
    (by with_unfolding_all decide) (by with_unfolding_all decide)

/-! ### Claim C9 -/

theorem mapM_ok_length {α β : Type} (l : List α) (f : α → Except String β)
    (ys : List β) (h : l.mapM f = .ok ys) : ys.length = l.length := by
  induction l generalizing ys with
  | nil =>
    simp only [List.mapM_nil, pure, Except.pure] at h
    cases h
    rfl
  | cons x xs ih =>
    simp only [List.mapM_cons, bind, Except.bind, pure, Except.pure] at h
    cases hx : f x with
    | error e => rw [hx] at h; cases h
    | ok y =>
      rw [hx] at h
      dsimp only at h
      cases hxs : xs.mapM f with
      | error e => rw [hxs] at h; cases h
      | ok ys2 =>
        rw [hxs] at h
        dsimp only at h
        cases h
        simp [ih ys2 hxs]

theorem getCol_setCol (df : Panel) (nm n : String) (v : Col) :
    (df.setCol nm v).getCol n = if nm = n then some v else df.getCol n := by
  induction df with
  | nil => rfl
  | cons p rest ih =>
    obtain ⟨m, c⟩ := p
    simp only [Panel.setCol]
    by_cases hm : m = nm
    · subst hm
      simp only [if_pos rfl, Panel.getCol]
      by_cases hn : m = n
      · subst hn
        simp
      · simp only [if_neg hn]
    · rw [if_neg hm]
      simp only [Panel.getCol, ih]
      by_cases hn : m = n
      · subst hn
        rw [if_pos rfl, if_neg (by intro he; exact hm he.symm), if_pos rfl]
      · rw [if_neg hn, if_neg hn]

theorem mem_setCol (df : Panel) (nm : String) (v : Col) (p : String × Col)
    (h : p ∈ df.setCol nm v) : p = (nm, v) ∨ p ∈ df := by
  induction df with
  | nil =>
    simp only [Panel.setCol] at h
    rcases List.mem_singleton.mp h with rfl
    exact Or.inl rfl
  | cons q rest ih =>
    obtain ⟨m, c⟩ := q
    simp only [Panel.setCol] at h
    split_ifs at h with hm
    · rcases List.mem_cons.mp h with rfl | hmem
      · exact Or.inl rfl
      · exact Or.inr (List.mem_cons_of_mem _ hmem)
    · rcases List.mem_cons.mp h with rfl | hmem
      · exact Or.inr (by simp)
      · rcases ih hmem with h1 | h1
        · exact Or.inl h1
        · exact Or.inr (List.mem_cons_of_mem _ h1)

theorem setCol_nrows (df : Panel) (nm : String) (v : Col)
    (hlen : v.length = df.nrows) : (df.setCol nm v).nrows = df.nrows := by
  cases df with
  | nil => simpa [Panel.setCol, Panel.nrows] using hlen
  | cons p rest =>
    obtain ⟨m, c⟩ := p
    simp only [Panel.setCol]
    split_ifs with hm
    · simpa [Panel.nrows] using hlen
    · rfl

theorem setCol_uniform (df : Panel) (nm : String) (v : Col)
    (hu : df.uniform) (hlen : v.length = df.nrows) :
    (df.setCol nm v).uniform := by
  intro p hp
  rw [setCol_nrows df nm v hlen]
  rcases mem_setCol df nm v p hp with rfl | hmem
  · exact hlen
  · exact hu p hmem

theorem safe_eval_preserve (df : Panel) (nm e : String) (df2 : Panel)
    (hu : df.uniform) (hok : safe_eval_formula df nm e = .ok df2) :
    df2.uniform ∧ df2.nrows = df.nrows := by
  rcases safe_eval_ok_shape df nm e df2 hok with ⟨c, hc, rfl⟩
  have hclen : c.length = df.nrows := by
    unfold pandasEvalCol at hc
    cases ht : pyTokenize e with
    | error e2 => rw [ht] at hc; cases hc
    | ok ts =>
      rw [ht] at hc
      dsimp only at hc
      cases hp : pParseTop true ts with
      | none => rw [hp] at hc; cases hc
      | some ast =>
        rw [hp] at hc
        have := mapM_ok_length _ _ _ hc
        simpa using this
  exact ⟨setCol_uniform df nm c hu hclen, setCol_nrows df nm c hclen⟩

theorem applyFormulas_preserve (fs : List Formula) (df : Panel) (hu : df.uniform) :
    (applyFormulas df fs).uniform ∧ (applyFormulas df fs).nrows = df.nrows := by
  induction fs generalizing df with
  | nil => exact ⟨hu, rfl⟩
  | cons f fs ih =>
    unfold applyFormulas
    cases hse : safe_eval_formula df f.name f.formula with
    | ok df2 =>
      dsimp only
      rcases safe_eval_preserve df f.name f.formula df2 hu hse with ⟨hu2, hn2⟩
      rcases ih df2 hu2 with ⟨hu3, hn3⟩
      exact ⟨hu3, by omega⟩
    | error e =>
      dsimp only
      exact ih df hu

theorem restrict_getCol (df : Panel) (idx : List Nat) (n : String) :
    (df.restrict idx).getCol n = (df.getCol n).map (fun c => applyIdxCol c idx) := by
  induction df with
  | nil => rfl
  | cons p rest ih =>
    obtain ⟨m, c⟩ := p
    simp only [Panel.restrict, List.map_cons, Panel.getCol]
    by_cases hm : m = n
    · rw [if_pos hm, if_pos hm]
      rfl
    · rw [if_neg hm, if_neg hm]
      simpa [Panel.restrict] using ih

theorem restrict_nrows (df : Panel) (idx : List Nat) (hne : df ≠ []) :
    (df.restrict idx).nrows = idx.length := by
  cases df with
  | nil => exact absurd rfl hne
  | cons p rest =>
    obtain ⟨m, c⟩ := p
    simp [Panel.restrict, Panel.nrows, applyIdxCol]

theorem getD_map_cell (l : List Nat) (f : Nat → Cell) (j : Nat) (h : j < l.length) :
    (l.map f).getD j Cell.nan = f (l.getD j 0) := by
  induction l generalizing j with
  | nil => simp at h
  | cons x xs ih =>
    cases j with
    | zero => rfl
    | succ j =>
      simp only [List.map_cons, List.getD_cons_succ]
      exact ih j (by simpa using h)

theorem getD_mem {α : Type} (l : List α) (j : Nat) (d : α) (h : j < l.length) :
    l.getD j d ∈ l := by
  induction l generalizing j with
  | nil => simp at h
  | cons x xs ih =>
    cases j with
    | zero => simp
    | succ j =>
      simp only [List.getD_cons_succ]
      exact List.mem_cons_of_mem _ (ih j (by simpa using h))

theorem selIdx_mem (mask : List Bool) (i : Nat) (h : i ∈ selIdx mask) :
    i < mask.length ∧ mask.getD i false = true := by
  unfold selIdx at h
  rcases List.mem_filter.mp h with ⟨h1, h2⟩
  exact ⟨List.mem_range.mp h1, h2⟩

theorem keepLastIdx_mem (keys : Col) (j : Nat) (h : j ∈ keepLastIdx keys) :
    j < keys.length ∧ noLaterDup keys j = true := by
  unfold keepLastIdx at h
  rcases List.mem_filter.mp h with ⟨h1, h2⟩
  exact ⟨List.mem_range.mp h1, h2⟩

theorem noLaterDup_spec (keys : Col) (i j : Nat) (hn : noLaterDup keys i = true)
    (hij : i < j) (hj : j < keys.length) :
    keys.getD j Cell.nan ≠ keys.getD i Cell.nan := by
  unfold noLaterDup at hn
  rw [List.all_eq_true] at hn
  have hx := hn j (List.mem_filter.mpr ⟨List.mem_range.mpr hj, by simpa using hij⟩)
  split_ifs at hx with he
  exact he

theorem cellEqB_true_eq (a b : Cell) (h : cellEqB a b = true) : a = b := by
  cases a <;> cases b <;> simp [cellEqB] at h <;> simp [h]

theorem getD_map_gen {α β : Type} (l : List α) (g : α → β) (j : Nat)
    (da : α) (db : β) (h : j < l.length) :
    (l.map g).getD j db = g (l.getD j da) := by
  induction l generalizing j with
  | nil => simp at h
  | cons x xs ih =>
    cases j with
    | zero => rfl
    | succ j =>
      simp only [List.map_cons, List.getD_cons_succ]
      exact ih j (by simpa using h)

theorem applyIdxCol_mem_getD (c : Col) (idx : List Nat) (x : Cell)
    (hx : x ∈ applyIdxCol c idx) : ∃ i ∈ idx, x = c.getD i Cell.nan := by
  unfold applyIdxCol at hx
  rcases List.mem_map.mp hx with ⟨i, hi, he⟩
  exact ⟨i, hi, he.symm⟩

theorem applyIdxCol_getD (c : Col) (idx : List Nat) (j : Nat) (h : j < idx.length) :
    (applyIdxCol c idx).getD j Cell.nan = c.getD (idx.getD j 0) Cell.nan := by
  unfold applyIdxCol
  exact getD_map_gen idx _ j 0 Cell.nan h

theorem eqMask_getD_true (dcol : Col) (m : Cell) (i : Nat) (h : i < dcol.length)
    (he : (eqMask dcol m).getD i false = true) : dcol.getD i Cell.nan = m := by
  unfold eqMask at he
  rw [getD_map_gen dcol _ i Cell.nan false h] at he
  exact cellEqB_true_eq _ _ he

/-- C9: in a multi-day screen (some rule uses a cross operator), every row
of the filtered result carries the maximum date of the (post-formula)
panel, the result holds at most one row per `ticker_id` (pairwise-distinct
ticker cells), and every result row is a row of the panel (with the same
cells in every column). -/
theorem C9_latest_dedup (req : ScreenRequest) (df df1 fil : Panel)
    (dcol1 dcolF tcolF : Col)
    (hm : needs_multi_day req = true)
    (hu : df.uniform)
    (hok : screenFilter req df = .ok (df1, fil))
    (hd1 : df1.getCol "date" = some dcol1)
    (hdF : fil.getCol "date" = some dcolF)
    (htF : fil.getCol "ticker_id" = some tcolF) :
    (∀ c ∈ dcolF, c = colMax dcol1) ∧
    List.Nodup tcolF ∧
    (∀ j, j < fil.nrows → ∃ i, i < df1.nrows ∧
      ∀ n, rowGet fil j n = rowGet df1 i n) := by
  unfold screenFilter at hok
  rw [if_pos hm] at hok
  cases hdate : (applyFormulas df req.custom_formulas).getCol "date" with
  | none => rw [hdate] at hok; cases hok
  | some dcol =>
    rw [hdate] at hok
    dsimp only at hok
    unfold screenFilterPost at hok
    cases hmasks : req.rules.mapM
        (fun r => apply_rule (applyFormulas df req.custom_formulas) r) with
    | error e => rw [hmasks] at hok; cases hok
    | ok masks =>
      rw [hmasks] at hok
      dsimp only at hok
      cases htc : (Panel.restrict (applyFormulas df req.custom_formulas)
          (selIdx (List.zipWith and
            (composeMasks req.logic masks (applyFormulas df req.custom_formulas).nrows)
            (eqMask dcol (colMax dcol))))).getCol "ticker_id" with
      | none => rw [htc] at hok; cases hok
      | some tcol =>
        rw [htc] at hok
        dsimp only at hok
        cases hok
        -- abbreviations
        have hdc1 : dcol1 = dcol := by
          rw [hdate] at hd1
          cases hd1
          rfl
        subst hdc1
        rcases applyFormulas_preserve req.custom_formulas df hu with ⟨hu1, _⟩
        have hdlen : dcol1.length = (applyFormulas df req.custom_formulas).nrows :=
          getCol_length _ _ _ hu1 hdate
        -- the ticker column of the filtered frame comes from the panel
        have htick1 :
            ∃ tick1, (applyFormulas df req.custom_formulas).getCol "ticker_id" =
              some tick1 ∧ tcol = applyIdxCol tick1
                (selIdx (List.zipWith and
                  (composeMasks req.logic masks
                    (applyFormulas df req.custom_formulas).nrows)
                  (eqMask dcol1 (colMax dcol1)))) := by
          rw [restrict_getCol] at htc
          cases hg : (applyFormulas df req.custom_formulas).getCol "ticker_id" with
          | none => rw [hg] at htc; cases htc
          | some tick1 =>
            rw [hg] at htc
            dsimp only [Option.map] at htc
            cases htc
            exact ⟨tick1, rfl, rfl⟩
        rcases htick1 with ⟨tick1, htick1g, htceq⟩
        have htlen : tcol.length =
            (selIdx (List.zipWith and
              (composeMasks req.logic masks
                (applyFormulas df req.custom_formulas).nrows)
              (eqMask dcol1 (colMax dcol1)))).length := by
          rw [htceq]
          simp [applyIdxCol]
        -- the date column of the filtered result
        have hdF2 : dcolF = applyIdxCol (applyIdxCol dcol1
            (selIdx (List.zipWith and
              (composeMasks req.logic masks
                (applyFormulas df req.custom_formulas).nrows)
              (eqMask dcol1 (colMax dcol1)))))
            (keepLastIdx tcol) := by
          rw [restrict_getCol, restrict_getCol, hdate] at hdF
          dsimp only [Option.map] at hdF
          cases hdF
          rfl
        have htF2 : tcolF = applyIdxCol tcol (keepLastIdx tcol) := by
          rw [restrict_getCol, htc] at htF
          dsimp only [Option.map] at htF
          cases htF
          rfl
        refine ⟨?_, ?_, ?_⟩
        · -- every result date is the panel maximum
          intro c hc
          rw [hdF2] at hc
          rcases applyIdxCol_mem_getD _ _ _ hc with ⟨j2, hj2mem, hc1⟩
          rcases keepLastIdx_mem tcol j2 hj2mem with ⟨hj2lt, _⟩
          rw [htlen] at hj2lt
          rw [applyIdxCol_getD _ _ _ hj2lt] at hc1
          have himem := getD_mem _ j2 0 hj2lt
          rcases selIdx_mem _ _ himem with ⟨hilt, hitrue⟩
          rw [zipWith_and_getD] at hitrue
          rcases Bool.and_eq_true_iff.mp hitrue with ⟨_, h2⟩
          have hilt2 : (List.getD (selIdx (List.zipWith and
              (composeMasks req.logic masks
                (applyFormulas df req.custom_formulas).nrows)
              (eqMask dcol1 (colMax dcol1)))) j2 0) < dcol1.length := by
            rw [List.length_zipWith] at hilt
            have hlz : (eqMask dcol1 (colMax dcol1)).length = dcol1.length := by
              simp [eqMask]
            omega
          rw [hc1]
          exact eqMask_getD_true dcol1 (colMax dcol1) _ hilt2 h2
        · -- pairwise-distinct tickers
          rw [htF2]
          unfold applyIdxCol
          unfold List.Nodup
          rw [List.pairwise_iff_getElem]
          simp only [List.length_map]
          intro i j hi hj hij
          simp only [List.getElem_map]
          have hsorted : List.Pairwise (· < ·) (keepLastIdx tcol) := by
            unfold keepLastIdx
            exact (List.pairwise_lt_range _).sublist (List.filter_sublist _)
          have hlt : (keepLastIdx tcol)[i] < (keepLastIdx tcol)[j] :=
            (List.pairwise_iff_getElem.mp hsorted) i j hi hj hij
          have hmemi : (keepLastIdx tcol)[i] ∈ keepLastIdx tcol :=
            List.getElem_mem _
          have hmemJ : (keepLastIdx tcol)[j] ∈ keepLastIdx tcol :=
            List.getElem_mem _
          rcases keepLastIdx_mem _ _ hmemi with ⟨hilt, hnod⟩
          rcases keepLastIdx_mem _ _ hmemJ with ⟨hjlt, _⟩
          have hne := noLaterDup_spec tcol _ _ hnod hlt hjlt
          exact fun he => hne (by rw [he])
        · -- every result row is a panel row
          intro j hj
          have hfilne : (Panel.restrict (applyFormulas df req.custom_formulas)
              (selIdx (List.zipWith and
                (composeMasks req.logic masks
                  (applyFormulas df req.custom_formulas).nrows)
                (eqMask dcol1 (colMax dcol1))))) ≠ [] := by
            intro h
            rw [h] at htc
            cases htc
          have hjlen : j < (keepLastIdx tcol).length := by
            rwa [restrict_nrows _ _ hfilne] at hj
          have hj2mem := getD_mem _ j 0 hjlen
          rcases keepLastIdx_mem tcol _ hj2mem with ⟨hj2lt, _⟩
          rw [htlen] at hj2lt
          have himem := getD_mem _ (List.getD (keepLastIdx tcol) j 0) 0 hj2lt
          rcases selIdx_mem _ _ himem with ⟨hilt, _⟩
          refine ⟨List.getD (selIdx (List.zipWith and
            (composeMasks req.logic masks
              (applyFormulas df req.custom_formulas).nrows)
            (eqMask dcol1 (colMax dcol1))))
            (List.getD (keepLastIdx tcol) j 0) 0, ?_, ?_⟩
          · rw [List.length_zipWith] at hilt
            have hlz : (eqMask dcol1 (colMax dcol1)).length = dcol1.length := by
              simp [eqMask]
            omega
          · intro n
            unfold rowGet
            rw [restrict_getCol, restrict_getCol]
            cases hg : (applyFormulas df req.custom_formulas).getCol n with
            | none => rfl
            | some col =>
              dsimp only [Option.map]
              rw [applyIdxCol_getD _ _ _ hjlen]
              rw [applyIdxCol_getD _ _ _ hj2lt]

/-- C9 witness: a two-day, two-ticker panel where ticker X crosses up through
its `ma5` on day 2.  The screen keeps exactly one row, for ticker X, dated
with the panel maximum `2`, and that row's values come from the panel. -/
theorem C9_witness :
    (∀ c ∈ ([Cell.num 2] : Col),
        c = colMax [Cell.num 1, Cell.num 2, Cell.num 1, Cell.num 2]) ∧
    List.Nodup ([Cell.str "X"] : Col) ∧
    (∀ j, j < (Panel.nrows
        [("ticker_id", [Cell.str "X"]), ("date", [Cell.num 2]),
         ("close", [Cell.num 105]), ("ma5", [Cell.num 100])]) →
      ∃ i, i < (Panel.nrows
        [("ticker_id", [Cell.str "X", Cell.str "X", Cell.str "Y", Cell.str "Y"]),
         ("date", [Cell.num 1, Cell.num 2, Cell.num 1, Cell.num 2]),
         ("close", [Cell.num 90, Cell.num 105, Cell.num 200, Cell.num 210]),
         ("ma5", [Cell.num 100, Cell.num 100, Cell.num 150, Cell.num 220])]) ∧
        ∀ n, rowGet
          [("ticker_id", [Cell.str "X"]), ("date", [Cell.num 2]),
           ("close", [Cell.num 105]), ("ma5", [Cell.num 100])] j n =
        rowGet
          [("ticker_id", [Cell.str "X", Cell.str "X", Cell.str "Y", Cell.str "Y"]),
           ("date", [Cell.num 1, Cell.num 2, Cell.num 1, Cell.num 2]),
           ("close", [Cell.num 90, Cell.num 105, Cell.num 200, Cell.num 210]),
           ("ma5", [Cell.num 100, Cell.num 100, Cell.num 150, Cell.num 220])] i n) :=
  C9_latest_dedup
    ⟨"AND", [⟨"close", "CROSS_UP", "field", TVal.fstr "ma5"⟩], []⟩
    [("ticker_id", [Cell.str "X", Cell.str "X", Cell.str "Y", Cell.str "Y"]),
     ("date", [Cell.num 1, Cell.num 2, Cell.num 1, Cell.num 2]),
     ("close", [Cell.num 90, Cell.num 105, Cell.num 200, Cell.num 210]),
     ("ma5", [Cell.num 100, Cell.num 100, Cell.num 150, Cell.num 220])]
    [("ticker_id", [Cell.str "X", Cell.str "X", Cell.str "Y", Cell.str "Y"]),
     ("date", [Cell.num 1, Cell.num 2, Cell.num 1, Cell.num 2]),
     ("close", [Cell.num 90, Cell.num 105, Cell.num 200, Cell.num 210]),
     ("ma5", [Cell.num 100, Cell.num 100, Cell.num 150, Cell.num 220])]
    [("ticker_id", [Cell.str "X"]), ("date", [Cell.num 2]),
     ("close", [Cell.num 105]), ("ma5", [Cell.num 100])]
    [Cell.num 1, Cell.num 2, Cell.num 1, Cell.num 2]
    [Cell.num 2] [Cell.str "X"]
    (by with_unfolding_all decide) (by with_unfolding_all decide)
    (by with_unfolding_all decide) (by with_unfolding_all decide)
    (by with_unfolding_all decide) (by with_unfolding_all decide)
